import Mathlib

set_option maxRecDepth 40000

/-!
Verification of the frontmatter normalizer in `scripts/02-standardize-yaml.py`.

Python strings are embedded as `List Char` (named `Str`); the script's
line-oriented processing (`content.split('\n')`, `'\n'.join(...)`) becomes
`splitNl` / `joinNl`. Python dictionaries holding YAML values become
association lists (`YDict`) with insertion-order-preserving update (`setk`),
matching CPython dict semantics. The filesystem inputs of the script are
passed as explicit parameters: the staging directory's name (`dirName`),
the listing of the published `posts/` directory (`posts`, `none` when the
directory does not exist), and the current date (`today`). The external
`dateutil.parser.parse` library call is an oracle parameter
(`Str → Option Str`, `none` meaning the library raises). Exceptions become
`Except PostError`; the script's two fatal error kinds are the two
constructors. Console messages are kept only where the source returns them
as data (the change log of `fix_duplicate_headings`).
-/

/-- Python `str` as a list of characters. -/
abbrev Str := List Char

/-- The whitespace set of Python's `str.strip` / `str.lstrip` / `str.rstrip`. -/
def isWsChar (c : Char) : Bool :=
  c = ' ' || c = '\t' || c = '\n' || c = '\r' || c = Char.ofNat 11 || c = Char.ofNat 12

/-- Python `str.lstrip()` (default whitespace set). -/
def pyLstrip (s : Str) : Str := s.dropWhile isWsChar

/-- Drop the longest suffix of characters satisfying `p` (structural recursion,
so that the kernel can evaluate it). -/
def rdropWhileB (p : Char → Bool) : Str → Str
  | [] => []
  | c :: cs =>
    match rdropWhileB p cs with
    | [] => if p c then [] else [c]
    | r :: rs => c :: r :: rs

/-- Python `str.rstrip()` (default whitespace set). -/
def pyRstrip (s : Str) : Str := rdropWhileB isWsChar s

/-- Python `str.strip()` (default whitespace set). -/
def pyStrip (s : Str) : Str := pyRstrip (pyLstrip s)

/-- Python `content.split('\n')`. -/
def splitNl : Str → List Str
  | [] => [[]]
  | c :: cs =>
    match splitNl cs with
    | [] => [[]]
    | r :: rs => if c = '\n' then [] :: r :: rs else (c :: r) :: rs

/-- Python `'\n'.join(lines)`. -/
def joinNl : List Str → Str
  | [] => []
  | [l] => l
  | l :: l2 :: ls => l ++ '\n' :: joinNl (l2 :: ls)

/-- ASCII lowering of one character (the script's data is ASCII). -/
def lowerCh (c : Char) : Char :=
  if 'A' ≤ c && c ≤ 'Z' then Char.ofNat (c.toNat + 32) else c

/-- Python `str.lower()`. -/
def pyLower (s : Str) : Str := s.map lowerCh

/-- Decimal digit test. -/
def isDigitCh (c : Char) : Bool := '0' ≤ c && c ≤ '9'

/-- Python `str.isdigit()`: nonempty and all digits. -/
def pyIsdigit (s : Str) : Bool := !s.isEmpty && s.all isDigitCh

/-- Decimal rendering of a natural number. -/
def natToStr (n : Nat) : Str := Nat.toDigits 10 n

/-- Decimal rendering of an integer (Python `str(int)`). -/
def intToStr (n : Int) : Str :=
  if n < 0 then '-' :: natToStr n.natAbs else natToStr n.natAbs

/-- Python `'%02d' % n` / `strftime` two-digit zero padding. -/
def pad2 (n : Nat) : Str := if n < 10 then '0' :: natToStr n else natToStr n

/-- A calendar date, standing for the value of `datetime.now()`. -/
structure PyDate where
  year : Nat
  month : Nat
  day : Nat
deriving DecidableEq

/-- Python `strftime('%Y-%m-%d')`. -/
def strftimeYmd (d : PyDate) : Str :=
  natToStr d.year ++ '-' :: pad2 d.month ++ '-' :: pad2 d.day

/-- Python `strftime('%Y%m%d')`. -/
def strftimeCompact (d : PyDate) : Str :=
  natToStr d.year ++ pad2 d.month ++ pad2 d.day

/-- Gregorian leap year, as `datetime` uses. -/
def isLeapYear (y : Nat) : Bool := (y % 4 == 0 && y % 100 != 0) || y % 400 == 0

/-- Days in a month of a given year. -/
def daysInMonth (y m : Nat) : Nat :=
  if m == 2 then (if isLeapYear y then 29 else 28)
  else if m == 4 || m == 6 || m == 9 || m == 11 then 30
  else 31

/-- Validity of `datetime(year, month, day)` (raises `ValueError` otherwise). -/
def validDate (y m d : Nat) : Bool :=
  1 ≤ y && y ≤ 9999 && 1 ≤ m && m ≤ 12 && 1 ≤ d && d ≤ daysInMonth y m

/-- A scalar YAML value as produced by the restricted loader below. -/
inductive YScalar where
  | s (v : Str)
  | b (v : Bool)
  | i (v : Int)
  | null
deriving DecidableEq

/-- A YAML value: a scalar or a flow list of scalars (the only shapes this
pipeline produces or consumes). -/
inductive YValue where
  | sc (v : YScalar)
  | li (elems : List YScalar)
deriving DecidableEq

/-- A Python dict from field names to YAML values, in insertion order. -/
abbrev YDict := List (Str × YValue)

/-- Python `d.get(k)` (`none` for a missing key). -/
def findk (d : YDict) (k : Str) : Option YValue :=
  match d with
  | [] => none
  | (k0, v0) :: rest => if k0 = k then some v0 else findk rest k

/-- Python `k in d`. -/
def containsk (d : YDict) (k : Str) : Bool := (findk d k).isSome

/-- Python `d[k] = v`: update in place if present (keeping the key's
position), else append — CPython insertion-order semantics. -/
def setk (d : YDict) (k : Str) (v : YValue) : YDict :=
  match d with
  | [] => [(k, v)]
  | (k0, v0) :: rest => if k0 = k then (k0, v) :: rest else (k0, v0) :: setk rest k v

/-- Python truthiness of a scalar. -/
def truthyS : YScalar → Bool
  | .s v => !v.isEmpty
  | .b v => v
  | .i v => v != 0
  | .null => false

/-- Python truthiness of a value. -/
def truthy : YValue → Bool
  | .sc v => truthyS v
  | .li es => !es.isEmpty

/-- Python truthiness of an optional value (`None` for a missing key). -/
def truthyO : Option YValue → Bool
  | none => false
  | some v => truthy v

/-- Python `str()` of a scalar. -/
def pyStrScalar : YScalar → Str
  | .s v => v
  | .b true => "True".toList
  | .b false => "False".toList
  | .i v => intToStr v
  | .null => "None".toList

/-- Python `repr()` of a scalar, as `str(list)` renders elements. -/
def pyReprScalar : YScalar → Str
  | .s v => Char.ofNat 39 :: v ++ [Char.ofNat 39]
  | other => pyStrScalar other

/-- Comma-join of element reprs inside `str(list)`. -/
def joinCommaRepr : List YScalar → Str
  | [] => []
  | [e] => pyReprScalar e
  | e :: e2 :: es => pyReprScalar e ++ ", ".toList ++ joinCommaRepr (e2 :: es)

/-- Python `str()` of a value. -/
def pyStrValue : YValue → Str
  | .sc v => pyStrScalar v
  | .li es => '[' :: joinCommaRepr es ++ [']']

/-! ## Field-name constants -/

/-- Field name `title`. -/
def kTitle : Str := "title".toList

/-- Field name `titel` (the misspelling the script also accepts). -/
def kTitel : Str := "titel".toList

/-- Field name `author`. -/
def kAuthor : Str := "author".toList

/-- Field name `date`. -/
def kDate : Str := "date".toList

/-- Field name `description`. -/
def kDescription : Str := "description".toList

/-- Field name `short-path`. -/
def kShortPath : Str := "short-path".toList

/-- Field name `categories`. -/
def kCategories : Str := "categories".toList

/-- Field name `draft`. -/
def kDraft : Str := "draft".toList

/-- Field name `toc`. -/
def kToc : Str := "toc".toList

/-- Field name `toc-depth`. -/
def kTocDepth : Str := "toc-depth".toList

/-- Field name `code-line-numbers`. -/
def kCln : Str := "code-line-numbers".toList

/-! ## Modelled library behavior: a restricted `yaml.safe_load`

The script calls PyYAML, which is not part of this repository. The loader
below models `yaml.safe_load` on the fragment the pipeline emits and
repairs: a top-level block mapping of `key: value` lines with quoted or
plain scalars, flat flow lists, booleans, integers, nulls and inline
comments. A nonblank line that is not a mapping entry is a parse error
(full PyYAML would accept some such documents as top-level scalars; that
case is not exercised by any theorem here). -/

/-- Remove an inline YAML comment from unquoted scalar text: a `#` at the
start of the text or after whitespace begins a comment. The flag records
whether the previous character was whitespace (or start of text). -/
def stripCommentAux : Bool → Str → Str
  | _, [] => []
  | atWs, c :: cs =>
    if c = '#' && atWs then [] else c :: stripCommentAux (isWsChar c) cs

/-- Comment removal for a scalar's raw text (which begins after `: `, so the
start of the text counts as being after whitespace). -/
def stripComment (s : Str) : Str := stripCommentAux true s

/-- Read a quoted string: the characters up to the closing quote `q`, and
the rest. Fails on an unterminated quote. No escape handling (subset). -/
def readQuoted (q : Char) : Str → Except Unit (Str × Str)
  | [] => .error ()
  | c :: cs =>
    if c = q then .ok ([], cs)
    else (readQuoted q cs).map (fun p => (c :: p.1, p.2))

/-- Classify plain (unquoted, comment-stripped, stripped) scalar text. -/
def classifyPlain (t : Str) : YScalar :=
  if t = "true".toList || t = "True".toList || t = "TRUE".toList then .b true
  else if t = "false".toList || t = "False".toList || t = "FALSE".toList then .b false
  else if t = "null".toList || t = "Null".toList || t = "NULL".toList || t = "~".toList then .null
  else if pyIsdigit t then .i (Int.ofNat (t.foldl (fun a c => a * 10 + (c.toNat - 48)) 0))
  else if t.head? = some '-' && pyIsdigit t.tail then
    .i (-(Int.ofNat (t.tail.foldl (fun a c => a * 10 + (c.toNat - 48)) 0)))
  else .s t

/-- Does plain scalar text contain a mapping colon (`:` followed by a space
or at the end), which is a YAML parse error inside a value? -/
def hasMapColon : Str → Bool
  | [] => false
  | c :: cs => (c = ':' && (cs.isEmpty || cs.head? == some ' ')) || hasMapColon cs

/-- Split flow-list text on commas (no nesting: subset). -/
def splitCommas : Str → List Str
  | [] => [[]]
  | c :: cs =>
    match splitCommas cs with
    | [] => [[]]
    | r :: rs => if c = ',' then [] :: r :: rs else (c :: r) :: rs

/-- Parse one item of a flow list. -/
def parseFlowItem (raw : Str) : Except Unit YScalar :=
  let t := pyStrip raw
  match t with
  | [] => .ok .null
  | c :: cs =>
    if c = '"' || c = Char.ofNat 39 then
      match readQuoted c cs with
      | .ok (content, rest) => if pyStrip rest = [] then .ok (.s content) else .error ()
      | .error _ => .error ()
    else if hasMapColon t then .error ()
    else .ok (classifyPlain t)

/-- Parse the text after a mapping colon into a YAML value. -/
def parseYamlValueText (raw : Str) : Except Unit YValue :=
  let t := pyStrip raw
  match t with
  | [] => .ok (.sc .null)
  | c :: cs =>
    if c = '"' || c = Char.ofNat 39 then
      match readQuoted c cs with
      | .ok (content, rest) =>
        let r := pyStrip rest
        if r = [] || r.head? == some '#' then .ok (.sc (.s content)) else .error ()
      | .error _ => .error ()
    else if c = '[' then
      match readQuoted ']' cs with
      | .ok (inner, rest) =>
        let r := pyStrip rest
        if !(r = [] || r.head? == some '#') then .error ()
        else if pyStrip inner = [] then .ok (.li [])
        else
          match (splitCommas inner).mapM parseFlowItem with
          | .ok items => .ok (.li items)
          | .error _ => .error ()
      | .error _ => .error ()
    else
      let t2 := pyRstrip (stripComment t)
      if t2 = [] then .ok (.sc .null)
      else if hasMapColon t2 then .error ()
      else .ok (.sc (classifyPlain t2))

/-- Find the mapping colon of a line: the first `:` followed by a space or
the end of the line; returns the text before and after it. -/
def findMapColon : Str → Option (Str × Str)
  | [] => none
  | c :: rest =>
    if c = ':' && (rest.isEmpty || rest.head? == some ' ') then some ([], rest)
    else (findMapColon rest).map (fun p => (c :: p.1, p.2))

/-- Parse the mapping lines of a YAML block, accumulating the dict and
whether any entry was seen. -/
def yamlLoadLines : List Str → YDict → Bool → Except Unit (Option YDict)
  | [], acc, sawAny => .ok (if sawAny then some acc else none)
  | l :: ls, acc, sawAny =>
    let t := pyStrip l
    if t = [] || t.head? == some '#' then yamlLoadLines ls acc sawAny
    else
      match findMapColon t with
      | none => .error ()
      | some (before, after) =>
        let key := pyStrip before
        if key = [] then .error ()
        else
          match parseYamlValueText after with
          | .ok v => yamlLoadLines ls (setk acc key v) true
          | .error _ => .error ()

/-- Modelled `yaml.safe_load` on the block-mapping fragment. `ok none`
stands for the Python result `None` (an empty document). -/
def yamlSafeLoadSub (content : Str) : Except Unit (Option YDict) :=
  yamlLoadLines (splitNl content) [] false

/-! ## The script's functions, in source order -/

/-- The special characters `attempt_yaml_fix` quotes values for. -/
def yamlSpecialChars : Str :=
  ['-', ':', '[', ']', Char.ofNat 123, Char.ofNat 125, '&', '*', '#', '|', '>', '%']

/-- Python `line.split(':', 1)` when `':' in line`. -/
def splitFirstColon : Str → Option (Str × Str)
  | [] => none
  | c :: rest =>
    if c = ':' then some ([], rest)
    else (splitFirstColon rest).map (fun p => (c :: p.1, p.2))

/-- One line of `attempt_yaml_fix`: re-quote a value containing structurally
significant characters. -/
def attemptYamlFixLine (line : Str) : Str :=
  if pyStrip line = [] then line
  else
    match splitFirstColon line with
    | none => line
    | some (k, v) =>
      let key := pyStrip k
      let value := pyStrip v
      let value2 :=
        if !value.isEmpty &&
            !(value.head? == some '"' || value.head? == some (Char.ofNat 39) ||
              value.head? == some '[' || value.head? == some (Char.ofNat 123) ||
              pyLower value = "true".toList || pyLower value = "false".toList ||
              pyIsdigit value) then
          (if value.any (fun c => yamlSpecialChars.contains c) then
            '"' :: value ++ ['"']
          else value)
        else value
      key ++ ':' :: ' ' :: value2

/-- `attempt_yaml_fix`: quote offending values line by line, re-parse, and
fall back to the empty dict if parsing still fails. -/
def attempt_yaml_fix (yamlContent : Str) : YDict :=
  let fixedLines := (splitNl yamlContent).map attemptYamlFixLine
  match yamlSafeLoadSub (joinNl fixedLines) with
  | .ok d => d.getD []
  | .error _ => []

/-- `extract_frontmatter_and_content`: split off a leading `---` block and
parse it; `none` when there is no (terminated) block. A parse error is
downgraded to the result of `attempt_yaml_fix`, never an error. -/
def extract_frontmatter_and_content (md : Str) : Option YDict × Str :=
  if !(List.isPrefixOf ("---".toList) md) then (none, md)
  else
    let lines := splitNl md
    match (lines.drop 1).findIdx? (fun l => pyStrip l == ("---".toList)) with
    | none => (none, md)
    | some i =>
      let yamlEnd := i + 1
      let yamlContent := joinNl ((lines.drop 1).take i)
      let remaining := joinNl (lines.drop (yamlEnd + 1))
      let fm :=
        match yamlSafeLoadSub yamlContent with
        | .ok d => d.getD []
        | .error _ => attempt_yaml_fix yamlContent
      (some fm, remaining)

/-- Count the leading `#` markers of (already stripped) heading text. -/
def countLeadingHashes (s : Str) : Nat := (s.takeWhile (fun c => c == '#')).length

/-- The change message `fix_duplicate_headings` records for one repair. -/
def headingChangeMsg (o f : Str) : Str :=
  "Fixed duplicate heading: '".toList ++ o ++ "' → '".toList ++ f ++ [Char.ofNat 39]

/-- One line of `fix_duplicate_headings`: collapse `# # text` to `# text`,
returning the fixed line and the change record, if any. -/
def fixDuplicateHeadingLine (line : Str) : Str × Option Str :=
  let stripped := pyStrip line
  if List.isPrefixOf ("#".toList) stripped then
    let n := countLeadingHashes stripped
    let remaining := pyStrip (stripped.drop n)
    if List.isPrefixOf (List.replicate n '#') remaining then
      let textPart := pyStrip (remaining.drop n)
      if textPart ≠ [] then
        let indent := line.length - (pyLstrip line).length
        let fixedLine := List.replicate indent ' ' ++ List.replicate n '#' ++ ' ' :: textPart
        (fixedLine, some (headingChangeMsg stripped (pyStrip fixedLine)))
      else (line, none)
    else (line, none)
  else (line, none)

/-- `fix_duplicate_headings`: repair `# # text` lines, returning the fixed
content and the list of change messages. -/
def fix_duplicate_headings (content : Str) : Str × List Str :=
  let results := (splitNl content).map fixDuplicateHeadingLine
  (joinNl (results.map Prod.fst), results.filterMap Prod.snd)

/-- The title a heading line yields: `line.lstrip('#').strip()` applied to
the stripped line. -/
def titleCandText (s : Str) : Str := pyStrip (s.dropWhile (fun c => c == '#'))

/-- The loop condition of `extract_title_from_content`: the stripped line
starts with `# ` or `## ` and yields nonempty title text. -/
def isTitleCand (l : Str) : Bool :=
  (List.isPrefixOf ("# ".toList) (pyStrip l) ||
   List.isPrefixOf ("## ".toList) (pyStrip l)) &&
  !(titleCandText (pyStrip l)).isEmpty

/-- The scanning loop of `extract_title_from_content` over the lines:
returns the extracted title and the remaining lines (the matched line
removed, all others kept in order). -/
def extractTitleGo : List Str → Option (Str × List Str)
  | [] => none
  | l :: ls =>
    if isTitleCand l then
      some (titleCandText (pyStrip l), ls)
    else (extractTitleGo ls).map (fun p => (p.1, l :: p.2))

/-- `extract_title_from_content`: take the first H1/H2 heading with nonempty
text as the title and remove that line from the content. -/
def extract_title_from_content (content : Str) : Option Str × Str :=
  match extractTitleGo (splitNl content) with
  | some (t, rem) => (some t, pyStrip (joinNl rem))
  | none => (none, content)

/-- The characters `sanitize_filename` removes. -/
def invalidFileChars : Str := ['<', '>', ':', '"', '|', '?', '*', '\\', '/']

/-- Collapse runs of dashes to a single dash (the `re.sub(r'-+', '-', ...)`
step); the flag records whether the previous kept character was a dash. -/
def collapseDashesAux : Bool → Str → Str
  | _, [] => []
  | prevDash, c :: cs =>
    if c = '-' then
      (if prevDash then collapseDashesAux true cs else '-' :: collapseDashesAux true cs)
    else c :: collapseDashesAux false cs

/-- Collapse runs of dashes to a single dash. -/
def collapseDashes (s : Str) : Str := collapseDashesAux false s

/-- Python `text.strip('-')`. -/
def stripDashes (s : Str) : Str :=
  rdropWhileB (fun c => c == '-') (s.dropWhile (fun c => c == '-'))

/-- `sanitize_filename`: lowercase, spaces to dashes, strip invalid
filesystem characters, collapse dash runs, trim dashes, `"untitled"` if
nothing is left. -/
def sanitize_filename (text : Str) : Str :=
  let t1 := pyLower text
  let t2 := t1.map (fun c => if c = ' ' then '-' else c)
  let t3 := t2.filter (fun c => !(invalidFileChars.contains c))
  let t4 := collapseDashes t3
  let t5 := stripDashes t4
  if t5.isEmpty then "untitled".toList else t5

/-! ## `parse_date` and its regex patterns -/

/-- A digit group of the date regexes: `\d{4}` or `\d{1,2}`. -/
inductive DGroup where
  | four
  | oneTwo
deriving DecidableEq

/-- One of the script's four date patterns: three digit groups joined by a
separator character. -/
structure DatePat where
  g1 : DGroup
  sep : Char
  g2 : DGroup
  g3 : DGroup
deriving DecidableEq

/-- The patterns of `parse_date`, in source order. -/
def datePatterns : List DatePat :=
  [ ⟨.four, '-', .oneTwo, .oneTwo⟩,
    ⟨.four, '/', .oneTwo, .oneTwo⟩,
    ⟨.oneTwo, '/', .oneTwo, .four⟩,
    ⟨.oneTwo, '-', .oneTwo, .four⟩ ]

/-- Take exactly `n` digits from the front, or fail. -/
def takeDigits : Nat → Str → Option (Str × Str)
  | 0, s => some ([], s)
  | _ + 1, [] => none
  | n + 1, c :: cs =>
    if isDigitCh c then (takeDigits n cs).map (fun p => (c :: p.1, p.2)) else none

/-- The candidate matches of a digit group, in the backtracking order of the
regex engine: `\d{4}` has one candidate; `\d{1,2}` is greedy, two digits
before one. -/
def groupCands : DGroup → Str → List (Str × Str)
  | .four, s => (takeDigits 4 s).toList
  | .oneTwo, s => (takeDigits 2 s).toList ++ (takeDigits 1 s).toList

/-- Match a date pattern anchored at the start of `s`, with regex
backtracking across the groups; returns the three captured groups. -/
def matchPatAt (p : DatePat) (s : Str) : Option (Str × Str × Str) :=
  (groupCands p.g1 s).findSome? fun d1 =>
    match d1.2 with
    | [] => none
    | c :: r2 =>
      if c = p.sep then
        (groupCands p.g2 r2).findSome? fun d2 =>
          match d2.2 with
          | [] => none
          | c2 :: r4 =>
            if c2 = p.sep then
              (groupCands p.g3 r4).findSome? fun d3 => some (d1.1, d2.1, d3.1)
            else none
      else none

/-- Python `re.search`: try the pattern at each start position, leftmost
match first. -/
def reSearch (p : DatePat) : Str → Option (Str × Str × Str)
  | [] => none
  | c :: rest =>
    match matchPatAt p (c :: rest) with
    | some r => some r
    | none => reSearch p rest

/-- Python `int()` of a nonempty digit string. -/
def digitsToNat (s : Str) : Nat := s.foldl (fun a c => a * 10 + (c.toNat - 48)) 0

/-- The pattern loop of `parse_date`: the first pattern that matches
somewhere in the string and validates as a `datetime` yields the
canonical form; an invalid date falls through to the next pattern. -/
def tryDatePatterns (s : Str) : Option Str :=
  datePatterns.findSome? fun p =>
    (reSearch p s).bind fun g =>
      let y := if g.1.length = 4 then digitsToNat g.1 else digitsToNat g.2.2
      let m := if g.1.length = 4 then digitsToNat g.2.1 else digitsToNat g.1
      let d := if g.1.length = 4 then digitsToNat g.2.2 else digitsToNat g.2.1
      if validDate y m d then some (strftimeYmd ⟨y, m, d⟩) else none

/-- `parse_date`: coerce the value to a string, try the numeric layouts,
fall back to the `dateutil` oracle, and finally to the current date. (A
`datetime` instance never reaches this model: the restricted loader keeps
dates as strings, whose string form the patterns parse identically.) -/
def parse_date (v : YValue) (oracle : Str → Option Str) (today : PyDate) : Str :=
  let s := pyStrValue v
  match tryDatePatterns s with
  | some out => out
  | none =>
    match oracle s with
    | some out => out
    | none => strftimeYmd today

/-! ## `check_short_path_conflict` -/

/-- The script's two fatal per-document error kinds. -/
inductive PostError where
  | missingTitle
  | tooManyConflicts
deriving DecidableEq

/-- Does some published directory name end with the given suffix? -/
def hasDirEndingWith (posts : List Str) (suf : Str) : Bool :=
  posts.any (fun d => List.isSuffixOf suf d)

/-- The suffix loop of `check_short_path_conflict`: try `-01`, `-02`, …
until a free slug is found, raising after `-99`. The fuel argument makes
the recursion structural; called with fuel 99 and counter 1, so fuel never
runs out before the counter check raises. -/
def conflictLoop (posts : List Str) (shortPath : Str) : Nat → Nat → Except PostError Str
  | 0, _ => .error .tooManyConflicts
  | fuel + 1, counter =>
    let newSp := shortPath ++ '-' :: pad2 counter
    if hasDirEndingWith posts ('_' :: newSp) then
      (if counter + 1 > 99 then .error .tooManyConflicts
       else conflictLoop posts shortPath fuel (counter + 1))
    else .ok newSp

/-- `check_short_path_conflict`: no conflict with the document's own
expected directory name; otherwise scan the published `posts/` listing and
suffix the slug until free. -/
def check_short_path_conflict (shortPath : Str) (dirName : Str)
    (posts : Option (List Str)) (today : PyDate) : Except PostError Str :=
  let dpPart :=
    if dirName.contains '_' then dirName.takeWhile (fun c => !(c == '_'))
    else strftimeCompact today
  let expected := dpPart ++ '_' :: shortPath
  if dirName = expected then .ok shortPath
  else
    match posts with
    | none => .ok shortPath
    | some dirs =>
      if hasDirEndingWith dirs ('_' :: shortPath) then conflictLoop dirs shortPath 99 1
      else .ok shortPath

/-! ## `standardize_frontmatter`, one definition per numbered block -/

/-- The `frontmatter.get('title') or frontmatter.get('titel')` expression. -/
def yamlTitleOf (fm : YDict) : Option YValue :=
  if truthyO (findk fm kTitle) then findk fm kTitle else findk fm kTitel

/-- Block 1 (handle title): a truthy metadata title is kept as
`str(v).strip()` and the (heading-fixed) content passes through; otherwise
the title is extracted from the content, failing with `MissingTitle` when
neither yields one. -/
def handleTitle (fm : YDict) (fixedContent : Str) : Except PostError (YDict × Str) :=
  let yt := yamlTitleOf fm
  if truthyO yt then
    .ok (setk [] kTitle (.sc (.s (pyStrip (pyStrValue (yt.getD (.sc .null)))))), fixedContent)
  else
    match extract_title_from_content fixedContent with
    | (some t, rest) => .ok (setk [] kTitle (.sc (.s t)), rest)
    | (none, _) => .error .missingTitle

/-- Block 2 (set author): always the fixed site-owner name. -/
def handleAuthor (clean : YDict) : YDict :=
  setk clean kAuthor (.sc (.s ("Nikhil Agarwal".toList)))

/-- Block 3 (handle date): a truthy date is normalized by `parse_date`,
otherwise the current date is used. -/
def handleDate (fm : YDict) (oracle : Str → Option Str) (today : PyDate)
    (clean : YDict) : YDict :=
  let dv := findk fm kDate
  if truthyO dv then
    setk clean kDate (.sc (.s (parse_date (dv.getD (.sc .null)) oracle today)))
  else setk clean kDate (.sc (.s (strftimeYmd today)))

/-- Block 4 (handle description): a truthy description is kept stripped,
otherwise the literal two-character sentinel `""` is stored. -/
def handleDescription (fm : YDict) (clean : YDict) : YDict :=
  let dv := findk fm kDescription
  if truthyO dv then
    setk clean kDescription (.sc (.s (pyStrip (pyStrValue (dv.getD (.sc .null))))))
  else setk clean kDescription (.sc (.s ['"', '"']))

/-- The clean dict's title as a string (always present after block 1). -/
def cleanTitleStr (clean : YDict) : Str :=
  match findk clean kTitle with
  | some (.sc (.s t)) => t
  | _ => []

/-- Block 5 (handle short-path): derive from title when absent or blank,
else sanitize the given value; then resolve conflicts. -/
def handleShortPath (fm : YDict) (dirName : Str) (posts : Option (List Str))
    (today : PyDate) (clean : YDict) : Except PostError YDict :=
  let spO := findk fm kShortPath
  let sp :=
    if !truthyO spO || (pyStrip (pyStrValue (spO.getD (.sc .null)))).isEmpty then
      sanitize_filename (cleanTitleStr clean)
    else sanitize_filename (pyStrValue (spO.getD (.sc .null)))
  (check_short_path_conflict sp dirName posts today).map
    (fun f => setk clean kShortPath (.sc (.s f)))

/-- Block 6 (handle categories): a string becomes a one-element list, a
list is truncated to its stripped first element, anything else empties. -/
def handleCategories (fm : YDict) (clean : YDict) : YDict :=
  match (findk fm kCategories).getD (.li []) with
  | .sc (.s s) => setk clean kCategories (.li [.s (pyStrip s)])
  | .li [] => setk clean kCategories (.li [])
  | .li (c0 :: _) => setk clean kCategories (.li [.s (pyStrip (pyStrScalar c0))])
  | _ => setk clean kCategories (.li [])

/-- The string-to-boolean conversion of blocks 7's fields: a string maps by
`lower() in ['true', 'yes', '1']`; every other value passes through
unchanged. -/
def normBoolValue (v : YValue) : YValue :=
  match v with
  | .sc (.s s) =>
    .sc (.b (pyLower s = "true".toList || pyLower s = "yes".toList ||
             pyLower s = "1".toList))
  | other => other

/-- Block 7a (draft): default false, strings converted, others kept. -/
def handleDraft (fm : YDict) (clean : YDict) : YDict :=
  setk clean kDraft (normBoolValue ((findk fm kDraft).getD (.sc (.b false))))

/-- Python `int()` on a YAML value: `ValueError`/`TypeError` become `none`. -/
def pyIntOf : YValue → Option Int
  | .sc (.i n) => some n
  | .sc (.b bv) => some (if bv then 1 else 0)
  | .sc (.s s) =>
    let t := pyStrip s
    if pyIsdigit t then some (Int.ofNat (digitsToNat t))
    else if t.head? == some '-' && pyIsdigit t.tail then
      some (-(Int.ofNat (digitsToNat t.tail)))
    else none
  | .sc .null => none
  | .li _ => none

/-- Block 7b (toc and toc-depth): toc like draft; toc-depth defaulted to 3
when toc is truthy and no depth was given, else coerced by `int()` with 3
as the error fallback. -/
def handleToc (fm : YDict) (clean : YDict) : YDict :=
  let toc := normBoolValue ((findk fm kToc).getD (.sc (.b false)))
  let clean1 := setk clean kToc toc
  if truthy toc && !containsk fm kTocDepth then
    setk clean1 kTocDepth (.sc (.i 3))
  else if containsk fm kTocDepth then
    match pyIntOf ((findk fm kTocDepth).getD (.sc .null)) with
    | some n => setk clean1 kTocDepth (.sc (.i n))
    | none => setk clean1 kTocDepth (.sc (.i 3))
  else clean1

/-- Block 7c (code-line-numbers): like draft. -/
def handleCln (fm : YDict) (clean : YDict) : YDict :=
  setk clean kCln (normBoolValue ((findk fm kCln).getD (.sc (.b false))))

/-- Block 8's list of auxiliary Quarto fields to preserve. -/
def quartoFields : List Str :=
  [ "subtitle".toList,
    "image".toList,
    "image-alt".toList,
    "lang".toList,
    "bibliography".toList,
    "citation".toList,
    "google-scholar".toList,
    "filters".toList,
    "lightbox".toList,
    "fig-cap-location".toList ]

/-- Block 8 (preserve auxiliary fields), iterating the field list. -/
def preserveFields (fm : YDict) (clean : YDict) : List Str → YDict
  | [] => clean
  | f :: fs =>
    let clean1 :=
      if containsk fm f then setk clean f ((findk fm f).getD (.sc .null)) else clean
    preserveFields fm clean1 fs

/-- `standardize_frontmatter`: fix duplicate headings, then run blocks 1-8
in source order; fatal per-document errors propagate. -/
def standardize_frontmatter (fm : YDict) (content : Str) (dirName : Str)
    (posts : Option (List Str)) (oracle : Str → Option Str) (today : PyDate) :
    Except PostError (YDict × Str) :=
  let fixedContent := (fix_duplicate_headings content).1
  match handleTitle fm fixedContent with
  | .error e => .error e
  | .ok (clean1, finalContent) =>
    let clean2 := handleAuthor clean1
    let clean3 := handleDate fm oracle today clean2
    let clean4 := handleDescription fm clean3
    match handleShortPath fm dirName posts today clean4 with
    | .error e => .error e
    | .ok clean5 =>
      let clean6 := handleCategories fm clean5
      let clean7 := handleDraft fm clean6
      let clean8 := handleToc fm clean7
      let clean9 := handleCln fm clean8
      .ok (preserveFields fm clean9 quartoFields, finalContent)

/-! ## `format_yaml_frontmatter` -/

/-- The serializer's preferred field order. -/
def orderedFields : List Str :=
  [kTitle, kAuthor, kDate, kDescription, kShortPath, kDraft, kToc, kTocDepth,
   kCln, kCategories]

/-- Python `str(bool).lower()`. -/
def boolLower (b : Bool) : Str := if b then "true".toList else "false".toList

/-- Render one ordered field as output lines, following the serializer's
if-chain: categories as a block list, dates always quoted, booleans
lowercase, strings quoted when they contain a colon or read as a boolean
word, everything else plain. -/
def renderOrdered (k : Str) (v : YValue) : List Str :=
  if k = kCategories then
    match v with
    | .li [] => [k ++ ": []".toList]
    | .li cats => (k ++ [':']) :: cats.map (fun c => "  - ".toList ++ pyStrScalar c)
    | other => [k ++ ": [".toList ++ pyStrValue other ++ [']']]
  else if k = kDate then [k ++ ": \"".toList ++ pyStrValue v ++ ['"']]
  else
    match v with
    | .sc (.b bv) => [k ++ ": ".toList ++ boolLower bv]
    | .sc (.s sv) =>
      if sv.contains ':' || pyLower sv = "true".toList || pyLower sv = "false".toList then
        [k ++ ": \"".toList ++ sv ++ ['"']]
      else [k ++ ": ".toList ++ sv]
    | other => [k ++ ": ".toList ++ pyStrValue other]

/-- Render one remaining (non-ordered) field. -/
def renderRemaining (k : Str) (v : YValue) : Str :=
  match v with
  | .sc (.b bv) => k ++ ": ".toList ++ boolLower bv
  | other => k ++ ": ".toList ++ pyStrValue other

/-- `format_yaml_frontmatter`: the `---` block with ordered fields first,
remaining fields after, and a blank line following the closing `---`. -/
def format_yaml_frontmatter (fm : YDict) : Str :=
  joinNl
    ( ["---".toList]
      ++ (orderedFields.foldr
            (fun k acc =>
              (match findk fm k with
               | some v => renderOrdered k v
               | none => []) ++ acc) [])
      ++ ((fm.filter (fun p => !(orderedFields.contains p.1))).map
            (fun p => renderRemaining p.1 p.2))
      ++ ["---".toList, []] )

/-! ## `process_post_directory` and `main` (pure cores) -/

/-- The pure core of `process_post_directory`: extract, default a missing
block to the empty dict, standardize, and re-serialize. The file is
rewritten exactly when the result is `ok`; on `error` nothing is written. -/
def processContent (content : Str) (dirName : Str) (posts : Option (List Str))
    (oracle : Str → Option Str) (today : PyDate) : Except PostError Str :=
  let ex := extract_frontmatter_and_content content
  let fm := ex.1.getD []
  (standardize_frontmatter fm ex.2 dirName posts oracle today).map
    (fun p => format_yaml_frontmatter p.1 ++ p.2)

/-- Whether an `Except` result is a success. -/
def isOkE : Except PostError Str → Bool
  | .ok _ => true
  | .error _ => false

/-- One staged post: its directory name and its file content. -/
structure PostInput where
  name : Str
  content : Str

/-- The batch loop of `main`: process every post in order, counting
successes and collecting the names of failed posts; a failure never stops
the loop. -/
def runBatch (posts : Option (List Str)) (oracle : Str → Option Str)
    (today : PyDate) : List PostInput → Nat × List Str
  | [] => (0, [])
  | p :: ps =>
    let ok := isOkE (processContent p.content p.name posts oracle today)
    let rest := runBatch posts oracle today ps
    (if ok then rest.1 + 1 else rest.1, if ok then rest.2 else p.name :: rest.2)

/-! ## Shared constants and result projections for the theorems -/

/-- A `dateutil` oracle that always raises. -/
def oracleNone : Str → Option Str := fun _ => none

/-- A fixed current date for concrete runs. -/
def dateC : PyDate := ⟨2025, 8, 13⟩

/-- The value of a field in a successful standardization result. -/
def fieldOfResult (k : Str) : Except PostError (YDict × Str) → Option YValue
  | .ok (c, _) => findk c k
  | .error _ => none

/-- The body of a successful standardization result. -/
def bodyOfResult : Except PostError (YDict × Str) → Option Str
  | .ok (_, b) => some b
  | .error _ => none

/-- The slug of a successful conflict resolution. -/
def resultSlug : Except PostError Str → Option Str
  | .ok s => some s
  | .error _ => none

/-- The error of a failed result, if any. -/
def resultErr {α : Type} : Except PostError α → Option PostError
  | .ok _ => none
  | .error e => some e

/-! ## Dictionary lemmas -/

theorem findk_setk_self (d : YDict) (k : Str) (v : YValue) :
    findk (setk d k v) k = some v := by
  induction d with
  | nil => simp [setk, findk]
  | cons p rest ih =>
    obtain ⟨k0, v0⟩ := p
    by_cases h : k0 = k
    · simp [setk, findk, h]
    · simp [setk, findk, h, ih]

theorem findk_setk_ne (d : YDict) (k v) {k' : Str} (h : k' ≠ k) :
    findk (setk d k v) k' = findk d k' := by
  induction d with
  | nil => simp [setk, findk, Ne.symm h]
  | cons p rest ih =>
    obtain ⟨k0, v0⟩ := p
    by_cases h0 : k0 = k
    · subst h0
      simp [setk, findk, Ne.symm h]
    · simp [setk, findk, h0, ih]

theorem findk_setk_isSome (d : YDict) (k v) {k' : Str}
    (h : (findk d k').isSome) : (findk (setk d k v) k').isSome := by
  by_cases hk : k' = k
  · subst hk
    rw [findk_setk_self]
    rfl
  · rw [findk_setk_ne _ _ _ hk]
    exact h

/-! ## Which keys each block writes, and what it leaves alone -/

theorem findk_handleAuthor_ne (c : YDict) {k : Str} (h : k ≠ kAuthor) :
    findk (handleAuthor c) k = findk c k := by
  simp only [handleAuthor]
  exact findk_setk_ne _ _ _ h

theorem findk_handleDate_ne (fm : YDict) (oracle today) (c : YDict) {k : Str}
    (h : k ≠ kDate) : findk (handleDate fm oracle today c) k = findk c k := by
  simp only [handleDate]
  split <;> exact findk_setk_ne _ _ _ h

theorem findk_handleDescription_ne (fm : YDict) (c : YDict) {k : Str}
    (h : k ≠ kDescription) : findk (handleDescription fm c) k = findk c k := by
  simp only [handleDescription]
  split <;> exact findk_setk_ne _ _ _ h

theorem findk_handleShortPath_ok_ne (fm : YDict) (dirName posts today) (c c' : YDict)
    {k : Str} (hk : k ≠ kShortPath)
    (h : handleShortPath fm dirName posts today c = .ok c') :
    findk c' k = findk c k := by
  simp only [handleShortPath] at h
  cases hc : check_short_path_conflict
      (if !truthyO (findk fm kShortPath) ||
          (pyStrip (pyStrValue ((findk fm kShortPath).getD (.sc .null)))).isEmpty then
        sanitize_filename (cleanTitleStr c)
      else sanitize_filename (pyStrValue ((findk fm kShortPath).getD (.sc .null))))
      dirName posts today with
  | error e => rw [hc] at h; exact absurd h (by simp [Except.map])
  | ok f =>
    rw [hc] at h
    simp only [Except.map, Except.ok.injEq] at h
    subst h
    exact findk_setk_ne _ _ _ hk

theorem findk_handleCategories_ne (fm : YDict) (c : YDict) {k : Str}
    (h : k ≠ kCategories) : findk (handleCategories fm c) k = findk c k := by
  simp only [handleCategories]
  split <;> exact findk_setk_ne _ _ _ h

theorem findk_handleDraft_ne (fm : YDict) (c : YDict) {k : Str}
    (h : k ≠ kDraft) : findk (handleDraft fm c) k = findk c k := by
  simp only [handleDraft]
  exact findk_setk_ne _ _ _ h

theorem findk_handleToc_ne (fm : YDict) (c : YDict) {k : Str}
    (h1 : k ≠ kToc) (h2 : k ≠ kTocDepth) : findk (handleToc fm c) k = findk c k := by
  simp only [handleToc]
  split
  · rw [findk_setk_ne _ _ _ h2, findk_setk_ne _ _ _ h1]
  · split
    · split <;> rw [findk_setk_ne _ _ _ h2, findk_setk_ne _ _ _ h1]
    · exact findk_setk_ne _ _ _ h1

theorem findk_handleCln_ne (fm : YDict) (c : YDict) {k : Str}
    (h : k ≠ kCln) : findk (handleCln fm c) k = findk c k := by
  simp only [handleCln]
  exact findk_setk_ne _ _ _ h

theorem findk_preserveFields_ne (fm : YDict) (c : YDict) (fs : List Str) {k : Str}
    (h : k ∉ fs) : findk (preserveFields fm c fs) k = findk c k := by
  induction fs generalizing c with
  | nil => rfl
  | cons f rest ih =>
    have hf : k ≠ f := fun he => h (he ▸ List.mem_cons_self f rest)
    have hr : k ∉ rest := fun he => h (List.mem_cons_of_mem f he)
    simp only [preserveFields]
    split
    · rw [ih _ hr, findk_setk_ne _ _ _ hf]
    · exact ih _ hr

theorem findk_handleAuthor_self (c : YDict) :
    findk (handleAuthor c) kAuthor = some (.sc (.s ("Nikhil Agarwal".toList))) := by
  simp only [handleAuthor]
  exact findk_setk_self _ _ _

theorem findk_handleDate_self (fm : YDict) (oracle today) (c : YDict) :
    (findk (handleDate fm oracle today c) kDate).isSome := by
  simp only [handleDate]
  split <;> simp [findk_setk_self]

theorem findk_handleDescription_self (fm : YDict) (c : YDict) :
    (findk (handleDescription fm c) kDescription).isSome := by
  simp only [handleDescription]
  split <;> simp [findk_setk_self]

theorem findk_handleShortPath_ok_self (fm : YDict) (dirName posts today) (c c' : YDict)
    (h : handleShortPath fm dirName posts today c = .ok c') :
    (findk c' kShortPath).isSome := by
  simp only [handleShortPath] at h
  cases hc : check_short_path_conflict
      (if !truthyO (findk fm kShortPath) ||
          (pyStrip (pyStrValue ((findk fm kShortPath).getD (.sc .null)))).isEmpty then
        sanitize_filename (cleanTitleStr c)
      else sanitize_filename (pyStrValue ((findk fm kShortPath).getD (.sc .null))))
      dirName posts today with
  | error e => rw [hc] at h; exact absurd h (by simp [Except.map])
  | ok f =>
    rw [hc] at h
    simp only [Except.map, Except.ok.injEq] at h
    subst h
    simp [findk_setk_self]

theorem findk_handleCategories_self (fm : YDict) (c : YDict) :
    (findk (handleCategories fm c) kCategories).isSome := by
  simp only [handleCategories]
  split <;> simp [findk_setk_self]

theorem findk_handleDraft_self (fm : YDict) (c : YDict) :
    findk (handleDraft fm c) kDraft
      = some (normBoolValue ((findk fm kDraft).getD (.sc (.b false)))) := by
  simp only [handleDraft]
  exact findk_setk_self _ _ _

theorem findk_handleToc_self (fm : YDict) (c : YDict) :
    findk (handleToc fm c) kToc
      = some (normBoolValue ((findk fm kToc).getD (.sc (.b false)))) := by
  have hne : kToc ≠ kTocDepth := by decide
  simp only [handleToc]
  split
  · rw [findk_setk_ne _ _ _ hne]
    exact findk_setk_self _ _ _
  · split
    · split <;> (rw [findk_setk_ne _ _ _ hne]; exact findk_setk_self _ _ _)
    · exact findk_setk_self _ _ _

theorem findk_handleCln_self (fm : YDict) (c : YDict) :
    findk (handleCln fm c) kCln
      = some (normBoolValue ((findk fm kCln).getD (.sc (.b false)))) := by
  simp only [handleCln]
  exact findk_setk_self _ _ _

/-- Successful standardization decomposes into the block chain: the title
block produced the final body, the short-path block succeeded, and the
output dict is the chain's result. -/
theorem standardize_ok_shape {fm : YDict} {content dirName : Str}
    {posts : Option (List Str)} {oracle : Str → Option Str} {today : PyDate}
    {c : YDict} {b : Str}
    (h : standardize_frontmatter fm content dirName posts oracle today = .ok (c, b)) :
    ∃ clean1 clean5,
      handleTitle fm (fix_duplicate_headings content).1 = .ok (clean1, b) ∧
      handleShortPath fm dirName posts today
        (handleDescription fm (handleDate fm oracle today (handleAuthor clean1)))
        = .ok clean5 ∧
      c = preserveFields fm (handleCln fm (handleToc fm (handleDraft fm
          (handleCategories fm clean5)))) quartoFields := by
  simp only [standardize_frontmatter] at h
  cases ht : handleTitle fm (fix_duplicate_headings content).1 with
  | error e => rw [ht] at h; exact absurd h (by simp)
  | ok pr =>
    obtain ⟨clean1, fc⟩ := pr
    rw [ht] at h
    dsimp only at h
    cases hs : handleShortPath fm dirName posts today
        (handleDescription fm (handleDate fm oracle today (handleAuthor clean1))) with
    | error e => rw [hs] at h; exact absurd h (by simp)
    | ok clean5 =>
      rw [hs] at h
      dsimp only at h
      rw [Except.ok.injEq, Prod.mk.injEq] at h
      obtain ⟨hc, hb⟩ := h
      refine ⟨clean1, clean5, ?_, hs, hc.symm⟩
      rw [← hb]

theorem findk_handleTitle_ok_self (fm : YDict) (fc : Str) (c1 : YDict) (b1 : Str)
    (h : handleTitle fm fc = .ok (c1, b1)) : (findk c1 kTitle).isSome := by
  simp only [handleTitle] at h
  split at h
  · rw [Except.ok.injEq, Prod.mk.injEq] at h
    rw [← h.1, findk_setk_self]
    rfl
  · cases hx : extract_title_from_content fc with
    | mk t r =>
      rw [hx] at h
      cases t with
      | none => exact absurd h (by simp)
      | some tv =>
        rw [Except.ok.injEq, Prod.mk.injEq] at h
        rw [← h.1, findk_setk_self]
        rfl

/-- Blocks 6-8 leave a key alone when it is none of theirs. -/
theorem findk_after_tail (fm clean5 : YDict) {k : Str}
    (h6 : k ≠ kCategories) (h7 : k ≠ kDraft) (h8 : k ≠ kToc) (h9 : k ≠ kTocDepth)
    (h10 : k ≠ kCln) (h11 : k ∉ quartoFields) :
    findk (preserveFields fm (handleCln fm (handleToc fm (handleDraft fm
        (handleCategories fm clean5)))) quartoFields) k = findk clean5 k := by
  rw [findk_preserveFields_ne _ _ _ h11, findk_handleCln_ne _ _ h10,
    findk_handleToc_ne _ _ h8 h9, findk_handleDraft_ne _ _ h7,
    findk_handleCategories_ne _ _ h6]

/-- Blocks 2-5 leave a key alone when it is none of theirs. -/
theorem findk_after_mid (fm : YDict) (dirName posts today oracle)
    (clean1 clean5 : YDict) {k : Str}
    (hs : handleShortPath fm dirName posts today
        (handleDescription fm (handleDate fm oracle today (handleAuthor clean1)))
        = .ok clean5)
    (h2 : k ≠ kAuthor) (h3 : k ≠ kDate) (h4 : k ≠ kDescription) (h5 : k ≠ kShortPath) :
    findk clean5 k = findk clean1 k := by
  rw [findk_handleShortPath_ok_ne _ _ _ _ _ _ h5 hs,
    findk_handleDescription_ne _ _ h4, findk_handleDate_ne _ _ _ _ h3,
    findk_handleAuthor_ne _ h2]

instance {ε α : Type} [DecidableEq ε] [DecidableEq α] : DecidableEq (Except ε α) := fun x y =>
  match x, y with
  | .ok a, .ok b =>
    if h : a = b then .isTrue (by rw [h])
    else .isFalse (fun hh => h (Except.ok.inj hh))
  | .error a, .error b =>
    if h : a = b then .isTrue (by rw [h])
    else .isFalse (fun hh => h (Except.error.inj hh))
  | .ok _, .error _ => .isFalse (fun hh => Except.noConfusion hh)
  | .error _, .ok _ => .isFalse (fun hh => Except.noConfusion hh)

/-! ## Claim C3 -/

/-- C3 counterexample: the document consisting of the single heading line
`# Hello` is processed successfully (so the file is rewritten) yet its
output body is empty, refuting the claimed "non-empty Body or processing
fails before writing". -/
theorem C3_counterexample :
    isOkE (processContent (("# Hello").toList) (("d").toList) none oracleNone dateC)
      = true
  ∧ bodyOfResult (standardize_frontmatter [] (("# Hello").toList) (("d").toList)
      none oracleNone dateC) = some [] := by
  decide

/-- C3 (amended): every successful standardization populates all nine
required metadata fields (title, author, date, description, short-path,
draft, toc, code-line-numbers, categories); on failure nothing is
produced. The body, however, may be empty. -/
theorem C3_required_fields (fm : YDict) (content dirName : Str)
    (posts : Option (List Str)) (oracle : Str → Option Str) (today : PyDate)
    (c : YDict) (b : Str)
    (h : standardize_frontmatter fm content dirName posts oracle today = .ok (c, b)) :
    (findk c kTitle).isSome ∧ (findk c kAuthor).isSome ∧ (findk c kDate).isSome ∧
    (findk c kDescription).isSome ∧ (findk c kShortPath).isSome ∧
    (findk c kDraft).isSome ∧ (findk c kToc).isSome ∧ (findk c kCln).isSome ∧
    (findk c kCategories).isSome := by
  obtain ⟨c1, c5, ht, hs, hc⟩ := standardize_ok_shape h
  subst hc
  refine ⟨?_, ?_, ?_, ?_, ?_, ?_, ?_, ?_, ?_⟩
  · rw [findk_after_tail _ _ (by decide) (by decide) (by decide) (by decide)
      (by decide) (by decide),
      findk_after_mid _ _ _ _ _ _ _ hs (by decide) (by decide) (by decide) (by decide)]
    exact findk_handleTitle_ok_self _ _ _ _ ht
  · rw [findk_after_tail _ _ (by decide) (by decide) (by decide) (by decide)
      (by decide) (by decide),
      findk_handleShortPath_ok_ne _ _ _ _ _ _ (by decide) hs,
      findk_handleDescription_ne _ _ (by decide), findk_handleDate_ne _ _ _ _ (by decide),
      findk_handleAuthor_self]
    rfl
  · rw [findk_after_tail _ _ (by decide) (by decide) (by decide) (by decide)
      (by decide) (by decide),
      findk_handleShortPath_ok_ne _ _ _ _ _ _ (by decide) hs,
      findk_handleDescription_ne _ _ (by decide)]
    exact findk_handleDate_self _ _ _ _
  · rw [findk_after_tail _ _ (by decide) (by decide) (by decide) (by decide)
      (by decide) (by decide),
      findk_handleShortPath_ok_ne _ _ _ _ _ _ (by decide) hs]
    exact findk_handleDescription_self _ _
  · rw [findk_after_tail _ _ (by decide) (by decide) (by decide) (by decide)
      (by decide) (by decide)]
    exact findk_handleShortPath_ok_self _ _ _ _ _ _ hs
  · rw [findk_preserveFields_ne _ _ _ (by decide), findk_handleCln_ne _ _ (by decide),
      findk_handleToc_ne _ _ (by decide) (by decide), findk_handleDraft_self]
    rfl
  · rw [findk_preserveFields_ne _ _ _ (by decide), findk_handleCln_ne _ _ (by decide),
      findk_handleToc_self]
    rfl
  · rw [findk_preserveFields_ne _ _ _ (by decide), findk_handleCln_self]
    rfl
  · rw [findk_preserveFields_ne _ _ _ (by decide), findk_handleCln_ne _ _ (by decide),
      findk_handleToc_ne _ _ (by decide) (by decide), findk_handleDraft_ne _ _ (by decide)]
    exact findk_handleCategories_self _ _

/-- The concrete output dict of normalizing the two-line document
`# Hello` + `body` with no staged conflicts. -/
def c3WitDict : YDict :=
  [ (kTitle, .sc (.s ("Hello".toList))),
    (kAuthor, .sc (.s ("Nikhil Agarwal".toList))),
    (kDate, .sc (.s ("2025-08-13".toList))),
    (kDescription, .sc (.s ['"', '"'])),
    (kShortPath, .sc (.s ("hello".toList))),
    (kCategories, .li []),
    (kDraft, .sc (.b false)),
    (kToc, .sc (.b false)),
    (kCln, .sc (.b false)) ]

/-- Witness for C3: the hypothesis of `C3_required_fields` holds at a
concrete document, and the theorem applies there. -/
theorem C3_required_fields_witness :
    standardize_frontmatter [] (("# Hello\nbody").toList) (("d").toList) none
        oracleNone dateC = .ok (c3WitDict, ("body").toList)
  ∧ ((findk c3WitDict kTitle).isSome ∧ (findk c3WitDict kAuthor).isSome ∧
     (findk c3WitDict kDate).isSome ∧ (findk c3WitDict kDescription).isSome ∧
     (findk c3WitDict kShortPath).isSome ∧ (findk c3WitDict kDraft).isSome ∧
     (findk c3WitDict kToc).isSome ∧ (findk c3WitDict kCln).isSome ∧
     (findk c3WitDict kCategories).isSome) :=
  ⟨by decide,
   C3_required_fields [] (("# Hello\nbody").toList) (("d").toList) none oracleNone
     dateC c3WitDict (("body").toList) (by decide)⟩

/-! ## Claim C1 -/

/-- C1 counterexample: two documents of one batch (staging directories
`20250101_aaa` and `20250102_bbb`, published posts directory empty) both
derive the slug `my-post` and both keep it — the second does not receive
`my-post-01`, because conflicts are only checked against the published
directory, not within the batch. -/
theorem C1_counterexample :
    fieldOfResult kShortPath (standardize_frontmatter [] (("# My Post\nbody").toList)
        (("20250101_aaa").toList) (some []) oracleNone dateC)
      = some (.sc (.s (("my-post").toList)))
  ∧ fieldOfResult kShortPath (standardize_frontmatter [] (("# My Post\nmore").toList)
        (("20250102_bbb").toList) (some []) oracleNone dateC)
      = some (.sc (.s (("my-post").toList)))
  ∧ (("my-post").toList : Str) ≠ ("my-post-01").toList := by
  decide

/-- C1 (amended): slug conflicts are resolved against the published
`posts/` directory only. Two batch documents deriving `my-post` both keep
it unchanged; a document deriving `my-post` while `posts/` already holds a
directory ending `_my-post` receives `my-post-01`. -/
theorem C1_amended :
    fieldOfResult kShortPath (standardize_frontmatter [] (("# My Post\nbody").toList)
        (("20250101_aaa").toList) (some []) oracleNone dateC)
      = some (.sc (.s (("my-post").toList)))
  ∧ fieldOfResult kShortPath (standardize_frontmatter [] (("# My Post\nmore").toList)
        (("20250102_bbb").toList) (some []) oracleNone dateC)
      = some (.sc (.s (("my-post").toList)))
  ∧ check_short_path_conflict (("my-post").toList) (("20250101_aaa").toList)
      (some [("20240101_my-post").toList]) dateC = .ok (("my-post-01").toList) := by
  decide

/-! ## Claim C2 -/

/-- A document whose explicit title is the string `# Hello`, as the
serializer will later emit it unquoted. -/
def c2Doc : Str := ("---\ntitle: \"# Hello\"\n---\nx").toList

/-- C2 (code bug): normalizing `c2Doc` succeeds, but normalizing the
produced output fails with `MissingTitle` — the serializer emits
`title: # Hello` unquoted, which re-parses as an empty value followed by a
comment. Re-running normalization is therefore not a no-op. -/
theorem C2_code_behavior :
    isOkE (processContent c2Doc (("d").toList) none oracleNone dateC) = true
  ∧ (processContent c2Doc (("d").toList) none oracleNone dateC).bind
      (fun out => processContent out (("d").toList) none oracleNone dateC)
      = .error .missingTitle := by
  decide

/-! ## Claim C4 -/

/-- C4 counterexample: with metadata title `" x "` and body `# # A`, the
output title is the trimmed `"x"` (not the verbatim value) and the output
body is the heading-fixed `# A` (not the untouched original). -/
theorem C4_counterexample :
    fieldOfResult kTitle (standardize_frontmatter [(kTitle, .sc (.s ((" x ").toList)))]
        (("# # A").toList) (("d").toList) none oracleNone dateC)
      = some (.sc (.s (("x").toList)))
  ∧ some (YValue.sc (.s (("x").toList))) ≠ some (YValue.sc (.s ((" x ").toList)))
  ∧ bodyOfResult (standardize_frontmatter [(kTitle, .sc (.s ((" x ").toList)))]
        (("# # A").toList) (("d").toList) none oracleNone dateC)
      = some (("# A").toList)
  ∧ (("# A").toList : Str) ≠ ("# # A").toList := by
  decide

/-- C4 (amended): when the metadata declares a truthy title (under `title`
or `titel`), the output title is the stripped string form of that value,
no heading line is removed from the body, but the duplicate-heading fix is
still applied: the final body is exactly `fix_duplicate_headings` of the
input body. -/
theorem C4_title_trimmed (fm : YDict) (content dirName : Str)
    (posts : Option (List Str)) (oracle : Str → Option Str) (today : PyDate)
    (c : YDict) (b : Str)
    (hv : truthyO (yamlTitleOf fm) = true)
    (h : standardize_frontmatter fm content dirName posts oracle today = .ok (c, b)) :
    findk c kTitle
      = some (.sc (.s (pyStrip (pyStrValue ((yamlTitleOf fm).getD (.sc .null))))))
  ∧ b = (fix_duplicate_headings content).1 := by
  obtain ⟨c1, c5, ht, hs, hc⟩ := standardize_ok_shape h
  subst hc
  simp only [handleTitle, hv, if_true] at ht
  rw [Except.ok.injEq, Prod.mk.injEq] at ht
  obtain ⟨hc1, hb⟩ := ht
  constructor
  · rw [findk_after_tail _ _ (by decide) (by decide) (by decide) (by decide)
      (by decide) (by decide),
      findk_after_mid _ _ _ _ _ _ _ hs (by decide) (by decide) (by decide) (by decide),
      ← hc1, findk_setk_self]
  · exact hb.symm

/-- The frontmatter of the C4 witness document. -/
def c4WitFm : YDict := [(kTitle, .sc (.s (("T").toList)))]

/-- The output dict of the C4 witness run. -/
def c4WitDict : YDict :=
  [ (kTitle, .sc (.s (("T").toList))),
    (kAuthor, .sc (.s ("Nikhil Agarwal".toList))),
    (kDate, .sc (.s ("2025-08-13".toList))),
    (kDescription, .sc (.s ['"', '"'])),
    (kShortPath, .sc (.s (("t").toList))),
    (kCategories, .li []),
    (kDraft, .sc (.b false)),
    (kToc, .sc (.b false)),
    (kCln, .sc (.b false)) ]

/-- Witness for C4: both hypotheses of `C4_title_trimmed` hold at a
concrete document with a declared title and a duplicated heading in the
body, and the theorem applies there. -/
theorem C4_title_trimmed_witness :
    truthyO (yamlTitleOf c4WitFm) = true
  ∧ standardize_frontmatter c4WitFm (("# # A").toList) (("d").toList) none oracleNone
      dateC = .ok (c4WitDict, ("# A").toList)
  ∧ (findk c4WitDict kTitle
       = some (.sc (.s (pyStrip (pyStrValue ((yamlTitleOf c4WitFm).getD (.sc .null))))))
     ∧ ("# A").toList = (fix_duplicate_headings (("# # A").toList)).1) :=
  ⟨by decide, by decide,
   C4_title_trimmed c4WitFm (("# # A").toList) (("d").toList) none oracleNone dateC
     c4WitDict (("# A").toList) (by decide) (by decide)⟩

/-! ## Claim C10 -/

/-- C10 counterexample: a non-string `draft` value (the integer 7) is
stored unchanged — it is not coerced through `bool()` to `true` as the
claim states. -/
theorem C10_counterexample :
    fieldOfResult kDraft (standardize_frontmatter
        [(kTitle, .sc (.s (("T").toList))), (kDraft, .sc (.i 7))] []
        (("d").toList) none oracleNone dateC)
      = some (.sc (.i 7))
  ∧ some (YValue.sc (.i 7)) ≠ some (YValue.sc (.b true)) := by
  decide

/-- The claimed behavior of one boolean field, amended: a string maps by
`lower() in ['true', 'yes', '1']`, an absent field takes the default
false, and a non-string value passes through unchanged (no `bool()`
coercion). -/
def boolFieldSpec (inV outV : Option YValue) : Prop :=
  match inV with
  | none => outV = some (.sc (.b false))
  | some (.sc (.s s)) =>
    outV = some (.sc (.b (pyLower s = "true".toList || pyLower s = "yes".toList ||
                          pyLower s = "1".toList)))
  | some v => outV = some v

theorem boolFieldSpec_norm (o : Option YValue) :
    boolFieldSpec o (some (normBoolValue (o.getD (.sc (.b false))))) := by
  cases o with
  | none => rfl
  | some v =>
    cases v with
    | sc sv => cases sv <;> rfl
    | li es => rfl

/-- C10 (amended): for each of the three boolean fields (draft, toc,
code-line-numbers), a string value maps to a boolean by
`lower() in ['true', 'yes', '1']`, an absent field defaults to false, and
a non-string value is stored unchanged. -/
theorem C10_bool_fields (fm : YDict) (content dirName : Str)
    (posts : Option (List Str)) (oracle : Str → Option Str) (today : PyDate)
    (c : YDict) (b : Str)
    (h : standardize_frontmatter fm content dirName posts oracle today = .ok (c, b)) :
    boolFieldSpec (findk fm kDraft) (findk c kDraft)
  ∧ boolFieldSpec (findk fm kToc) (findk c kToc)
  ∧ boolFieldSpec (findk fm kCln) (findk c kCln) := by
  obtain ⟨c1, c5, ht, hs, hc⟩ := standardize_ok_shape h
  subst hc
  refine ⟨?_, ?_, ?_⟩
  · rw [findk_preserveFields_ne _ _ _ (by decide), findk_handleCln_ne _ _ (by decide),
      findk_handleToc_ne _ _ (by decide) (by decide), findk_handleDraft_self]
    exact boolFieldSpec_norm _
  · rw [findk_preserveFields_ne _ _ _ (by decide), findk_handleCln_ne _ _ (by decide),
      findk_handleToc_self]
    exact boolFieldSpec_norm _
  · rw [findk_preserveFields_ne _ _ _ (by decide), findk_handleCln_self]
    exact boolFieldSpec_norm _

/-- The frontmatter of the C10 witness document: one string-typed and one
absent boolean field, plus a non-string one. -/
def c10WitFm : YDict :=
  [ (kTitle, .sc (.s (("T").toList))),
    (kDraft, .sc (.s ("YES".toList))),
    (kToc, .sc (.i 5)) ]

/-- The output dict of the C10 witness run. -/
def c10WitDict : YDict :=
  [ (kTitle, .sc (.s (("T").toList))),
    (kAuthor, .sc (.s ("Nikhil Agarwal".toList))),
    (kDate, .sc (.s ("2025-08-13".toList))),
    (kDescription, .sc (.s ['"', '"'])),
    (kShortPath, .sc (.s (("t").toList))),
    (kCategories, .li []),
    (kDraft, .sc (.b true)),
    (kToc, .sc (.i 5)),
    (kTocDepth, .sc (.i 3)),
    (kCln, .sc (.b false)) ]

/-- Witness for C10: the hypothesis of `C10_bool_fields` holds at a
concrete document exercising all three cases (string, non-string, absent),
and the theorem applies there. -/
theorem C10_bool_fields_witness :
    standardize_frontmatter c10WitFm [] (("d").toList) none oracleNone dateC
      = .ok (c10WitDict, [])
  ∧ (boolFieldSpec (findk c10WitFm kDraft) (findk c10WitDict kDraft)
     ∧ boolFieldSpec (findk c10WitFm kToc) (findk c10WitDict kToc)
     ∧ boolFieldSpec (findk c10WitFm kCln) (findk c10WitDict kCln)) :=
  ⟨by decide,
   C10_bool_fields c10WitFm [] (("d").toList) none oracleNone dateC c10WitDict []
     (by decide)⟩

/-! ## Claim C7 -/

theorem conflictLoop_error_eq (posts : List Str) (sp : Str) (fuel counter : Nat)
    (e : PostError) (h : conflictLoop posts sp fuel counter = .error e) :
    e = .tooManyConflicts := by
  induction fuel generalizing counter with
  | zero => exact (Except.error.inj h).symm
  | succ n ih =>
    simp only [conflictLoop] at h
    split at h
    · split at h
      · exact (Except.error.inj h).symm
      · exact ih _ h
    · exact absurd h (by simp)

theorem check_short_path_error_eq (sp dirName : Str) (posts : Option (List Str))
    (today : PyDate) (e : PostError)
    (h : check_short_path_conflict sp dirName posts today = .error e) :
    e = .tooManyConflicts := by
  simp only [check_short_path_conflict] at h
  repeat' split at h
  all_goals
    first
      | exact Except.noConfusion h
      | exact conflictLoop_error_eq _ _ _ _ _ h

theorem handleShortPath_error_eq (fm : YDict) (dirName : Str)
    (posts : Option (List Str)) (today : PyDate) (c : YDict) (e : PostError)
    (h : handleShortPath fm dirName posts today c = .error e) :
    e = .tooManyConflicts := by
  simp only [handleShortPath] at h
  cases hc : check_short_path_conflict
      (if !truthyO (findk fm kShortPath) ||
          (pyStrip (pyStrValue ((findk fm kShortPath).getD (.sc .null)))).isEmpty then
        sanitize_filename (cleanTitleStr c)
      else sanitize_filename (pyStrValue ((findk fm kShortPath).getD (.sc .null))))
      dirName posts today with
  | error e2 =>
    rw [hc] at h
    simp only [Except.map] at h
    rw [Except.error.injEq] at h
    rw [← h]
    exact check_short_path_error_eq _ _ _ _ _ hc
  | ok f => rw [hc] at h; exact absurd h (by simp [Except.map])

theorem handleTitle_error_iff (fm : YDict) (fc : Str) :
    handleTitle fm fc = .error .missingTitle
      ↔ truthyO (yamlTitleOf fm) = false ∧ (extract_title_from_content fc).1 = none := by
  constructor
  · intro h
    simp only [handleTitle] at h
    split at h
    · exact absurd h (by simp)
    · next hTr =>
      refine ⟨by simpa using hTr, ?_⟩
      cases hx : extract_title_from_content fc with
      | mk t r =>
        rw [hx] at h
        cases t with
        | none => rfl
        | some tv => exact absurd h (by simp)
  · intro ⟨h1, h2⟩
    simp only [handleTitle, h1]
    cases hx : extract_title_from_content fc with
    | mk t r =>
      rw [hx] at h2
      dsimp only at h2
      subst h2
      simp

theorem handleTitle_error_eq (fm : YDict) (fc : Str) (e : PostError)
    (h : handleTitle fm fc = .error e) : e = .missingTitle := by
  simp only [handleTitle] at h
  split at h
  · exact absurd h (by simp)
  · cases hx : extract_title_from_content fc with
    | mk t r =>
      rw [hx] at h
      cases t with
      | none => exact (Except.error.inj h).symm
      | some tv => exact absurd h (by simp)

/-- C7: per-document normalization fails with `MissingTitle` exactly when
the metadata title is not truthy and no body heading (after the duplicate
fix) yields a title; and the batch loop is a homomorphism over
concatenation, so one document's failure never stops the processing of
the rest. -/
theorem C7_missing_title_iff (fm : YDict) (content dirName : Str)
    (posts : Option (List Str)) (oracle : Str → Option Str) (today : PyDate) :
    (standardize_frontmatter fm content dirName posts oracle today
        = .error .missingTitle
      ↔ truthyO (yamlTitleOf fm) = false ∧
        (extract_title_from_content (fix_duplicate_headings content).1).1 = none)
  ∧ (∀ l1 l2 : List PostInput,
      runBatch posts oracle today (l1 ++ l2)
        = ((runBatch posts oracle today l1).1 + (runBatch posts oracle today l2).1,
           (runBatch posts oracle today l1).2 ++ (runBatch posts oracle today l2).2)) := by
  constructor
  · constructor
    · intro h
      simp only [standardize_frontmatter] at h
      cases ht : handleTitle fm (fix_duplicate_headings content).1 with
      | error e =>
        rw [ht] at h
        dsimp only at h
        rw [Except.error.injEq] at h
        rw [← handleTitle_error_iff]
        rw [h] at ht
        exact ht
      | ok pr =>
        obtain ⟨c1, fc⟩ := pr
        rw [ht] at h
        dsimp only at h
        cases hs : handleShortPath fm dirName posts today
            (handleDescription fm (handleDate fm oracle today (handleAuthor c1))) with
        | error e2 =>
          rw [hs] at h
          dsimp only at h
          rw [Except.error.injEq] at h
          have := handleShortPath_error_eq _ _ _ _ _ _ hs
          rw [h] at this
          exact absurd this (by decide)
        | ok c5 => rw [hs] at h; exact absurd h (by simp)
    · intro hcond
      have ht : handleTitle fm (fix_duplicate_headings content).1
          = .error .missingTitle := (handleTitle_error_iff _ _).mpr hcond
      simp only [standardize_frontmatter, ht]
  · intro l1 l2
    induction l1 with
    | nil => simp [runBatch]
    | cons p ps ih =>
      simp only [List.cons_append, runBatch, List.append_eq]
      rw [ih]
      cases isOkE (processContent p.content p.name posts oracle today) <;>
        simp [Nat.add_right_comm, List.cons_append]

/-! ## Claim C9 -/

/-- A concrete current date distinct from any parsed value. -/
def dateW : PyDate := ⟨2024, 1, 2⟩

/-- C9: `08/13/2025` normalizes to `2025-08-13` whatever the library
oracle and current date are (the month-first layout is recognized by its
4-digit year group), and an unparseable string falls back to the current
date, given that the `dateutil` oracle raises on it. -/
theorem C9_parse_date (oracle : Str → Option Str) (today : PyDate) :
    parse_date (.sc (.s (("08/13/2025").toList))) oracle today = ("2025-08-13").toList
  ∧ (oracle (("not a date").toList) = none →
      parse_date (.sc (.s (("not a date").toList))) oracle today = strftimeYmd today) := by
  constructor
  · rfl
  · intro h
    have e : parse_date (.sc (.s (("not a date").toList))) oracle today
        = (match oracle (("not a date").toList) with
           | some out => out
           | none => strftimeYmd today) := rfl
    rw [e, h]

/-- Witness for C9: the oracle hypothesis holds for the always-raising
oracle, and the theorem applies there. -/
theorem C9_parse_date_witness :
    oracleNone (("not a date").toList) = none
  ∧ parse_date (.sc (.s (("08/13/2025").toList))) oracleNone dateW
      = ("2025-08-13").toList
  ∧ parse_date (.sc (.s (("not a date").toList))) oracleNone dateW
      = strftimeYmd dateW :=
  ⟨rfl, (C9_parse_date oracleNone dateW).1, (C9_parse_date oracleNone dateW).2 rfl⟩

/-! ## Claim C8 -/

/-- A document whose metadata block is malformed beyond repair: the line
`justtext` has no colon, so both the loader and the repaired re-parse
fail. -/
def c8Doc : Str := ("---\na: 1\njusttext\n---\n# T\nbody").toList

/-- C8: extraction never raises. An unterminated metadata block (opening
`---` with no later closing line) yields no metadata and the untouched
text; a metadata block that fails to parse even after repair yields the
empty dict; and processing then proceeds to the body-heading title
fallback. -/
theorem C8_malformed_frontmatter :
    (∀ text : Str, List.isPrefixOf ("---".toList) text = true →
      ((splitNl text).drop 1).findIdx? (fun l => pyStrip l == ("---".toList)) = none →
      extract_frontmatter_and_content text = (none, text))
  ∧ extract_frontmatter_and_content c8Doc = (some [], ("# T\nbody").toList)
  ∧ fieldOfResult kTitle (standardize_frontmatter [] (("# T\nbody").toList)
      (("d").toList) none oracleNone dateC) = some (.sc (.s (("T").toList))) := by
  refine ⟨fun text h1 h2 => ?_, by decide, by decide⟩
  simp only [extract_frontmatter_and_content]
  rw [h1, h2]
  simp

/-- Witness for C8: the hypotheses of the unterminated-block part hold at
a concrete document, and the theorem applies there. -/
theorem C8_malformed_frontmatter_witness :
    List.isPrefixOf ("---".toList) (("---\nabc").toList) = true
  ∧ ((splitNl (("---\nabc").toList)).drop 1).findIdx?
      (fun l => pyStrip l == ("---".toList)) = none
  ∧ extract_frontmatter_and_content (("---\nabc").toList)
      = (none, ("---\nabc").toList) :=
  ⟨by decide, by decide,
   C8_malformed_frontmatter.1 (("---\nabc").toList) (by decide) (by decide)⟩

/-! ## Line-structure lemmas for the title-extraction claims -/

theorem splitNl_ne_nil (cs : Str) : splitNl cs ≠ [] := by
  cases cs with
  | nil => simp [splitNl]
  | cons c rest =>
    cases h : splitNl rest with
    | nil => simp [splitNl, h]
    | cons r rs =>
      simp only [splitNl, h]
      split <;> simp

theorem splitNl_cons_eq (c : Char) (cs : Str) {r : Str} {rs : List Str}
    (h : splitNl cs = r :: rs) :
    splitNl (c :: cs) = if c = '\n' then [] :: r :: rs else (c :: r) :: rs := by
  simp [splitNl, h]

theorem splitNl_exists_cons (cs : Str) : ∃ r rs, splitNl cs = r :: rs := by
  cases h : splitNl cs with
  | nil => exact absurd h (splitNl_ne_nil cs)
  | cons r rs => exact ⟨r, rs, rfl⟩

theorem splitNl_no_nl {cs : Str} (h : '\n' ∉ cs) : splitNl cs = [cs] := by
  induction cs with
  | nil => rfl
  | cons c rest ih =>
    have hc : c ≠ '\n' := fun he => h (he ▸ List.mem_cons_self c rest)
    have hr : '\n' ∉ rest := fun he => h (List.mem_cons_of_mem c he)
    rw [splitNl_cons_eq c rest (ih hr)]
    simp [hc]

theorem splitNl_append_nl {l : Str} (rest : Str) (h : '\n' ∉ l) :
    splitNl (l ++ '\n' :: rest) = l :: splitNl rest := by
  induction l with
  | nil =>
    obtain ⟨r, rs, hr⟩ := splitNl_exists_cons rest
    simp [splitNl_cons_eq '\n' rest hr, hr]
  | cons c crest ih =>
    have hc : c ≠ '\n' := fun he => h (he ▸ List.mem_cons_self c crest)
    have hr : '\n' ∉ crest := fun he => h (List.mem_cons_of_mem c he)
    have hi := ih hr
    obtain ⟨r, rs, hrr⟩ := splitNl_exists_cons (crest ++ '\n' :: rest)
    rw [List.cons_append, splitNl_cons_eq c _ hrr, if_neg hc]
    rw [hi] at hrr
    rw [List.cons.injEq] at hrr
    rw [hrr.1, hrr.2]

theorem splitNl_join {L : List Str} (h : ∀ l ∈ L, '\n' ∉ l) (hne : L ≠ []) :
    splitNl (joinNl L) = L := by
  induction L with
  | nil => exact absurd rfl hne
  | cons l ls ih =>
    cases ls with
    | nil =>
      simp only [joinNl]
      exact splitNl_no_nl (h l (List.mem_cons_self _ _))
    | cons l2 ls2 =>
      simp only [joinNl]
      rw [splitNl_append_nl _ (h l (List.mem_cons_self _ _))]
      rw [ih (fun x hx => h x (List.mem_cons_of_mem l hx)) (by simp)]

theorem mem_splitNl_sub {cs : Str} {l : Str} (h : l ∈ splitNl cs) :
    ∀ x ∈ l, x ∈ cs := by
  induction cs generalizing l with
  | nil =>
    simp only [splitNl, List.mem_singleton] at h
    subst h
    simp
  | cons c rest ih =>
    obtain ⟨r, rs, hr⟩ := splitNl_exists_cons rest
    rw [splitNl_cons_eq c rest hr] at h
    split at h
    · rcases List.mem_cons.mp h with he | he
      · subst he; simp
      · exact fun x hx => List.mem_cons_of_mem c (ih (hr ▸ he) x hx)
    · rcases List.mem_cons.mp h with he | he
      · subst he
        intro x hx
        rcases List.mem_cons.mp hx with hx | hx
        · exact hx ▸ List.mem_cons_self c rest
        · exact List.mem_cons_of_mem c (ih (hr ▸ List.mem_cons_self r rs) x hx)
      · exact fun x hx => List.mem_cons_of_mem c (ih (hr ▸ List.mem_cons_of_mem r he) x hx)

theorem mem_splitNl_no_nl {cs : Str} {l : Str} (h : l ∈ splitNl cs) : '\n' ∉ l := by
  induction cs generalizing l with
  | nil =>
    simp only [splitNl, List.mem_singleton] at h
    subst h
    simp
  | cons c rest ih =>
    obtain ⟨r, rs, hr⟩ := splitNl_exists_cons rest
    rw [splitNl_cons_eq c rest hr] at h
    split at h
    · rcases List.mem_cons.mp h with he | he
      · subst he; simp
      · exact ih (hr ▸ he)
    · next hc =>
      rcases List.mem_cons.mp h with he | he
      · subst he
        intro hx
        rcases List.mem_cons.mp hx with hx | hx
        · exact hc hx.symm
        · exact ih (hr ▸ List.mem_cons_self r rs) hx
      · exact ih (hr ▸ List.mem_cons_of_mem r he)

theorem splitNl_eq_singleton_nil {cs : Str} (h : splitNl cs = [[]]) : cs = [] := by
  cases cs with
  | nil => rfl
  | cons c rest =>
    obtain ⟨r, rs, hr⟩ := splitNl_exists_cons rest
    rw [splitNl_cons_eq c rest hr] at h
    split at h
    · simp at h
    · rw [List.cons.injEq] at h
      exact absurd h.1 (by simp)

theorem rdrop_eq_nil_iff (p : Char → Bool) (cs : Str) :
    rdropWhileB p cs = [] ↔ cs.all p := by
  induction cs with
  | nil => simp [rdropWhileB]
  | cons c rest ih =>
    simp only [rdropWhileB, List.all_cons]
    cases h : rdropWhileB p rest with
    | nil =>
      have := ih.mp h
      split <;> simp_all
    | cons y ys =>
      have : ¬rest.all p = true := fun ha => by
        rw [ih.mpr ha] at h
        exact List.noConfusion h
      simp_all

theorem rdrop_cons_of_cons (p : Char → Bool) (c : Char) (cs : Str) {y : Char} {ys : Str}
    (h : rdropWhileB p cs = y :: ys) :
    rdropWhileB p (c :: cs) = c :: y :: ys := by
  simp [rdropWhileB, h]

theorem rdrop_idem (p : Char → Bool) (cs : Str) :
    rdropWhileB p (rdropWhileB p cs) = rdropWhileB p cs := by
  induction cs with
  | nil => rfl
  | cons c rest ih =>
    cases h : rdropWhileB p rest with
    | nil =>
      simp only [rdropWhileB, h]
      split
      · rfl
      · next hc => simp [rdropWhileB, hc]
    | cons y ys =>
      rw [rdrop_cons_of_cons p c rest h]
      rw [h] at ih
      exact rdrop_cons_of_cons p c (y :: ys) ih

theorem pyLstrip_idem (cs : Str) : pyLstrip (pyLstrip cs) = pyLstrip cs := by
  induction cs with
  | nil => rfl
  | cons c rest ih =>
    simp only [pyLstrip, List.dropWhile_cons]
    split
    · exact ih
    · next hc => simp [List.dropWhile_cons, hc]

theorem pyStrip_cons_ws {c : Char} (hc : isWsChar c = true) (r : Str) :
    pyStrip (c :: r) = pyStrip r := by
  simp [pyStrip, pyLstrip, List.dropWhile_cons, hc]

theorem pyStrip_allws {cs : Str} (h : cs.all isWsChar) : pyStrip cs = [] := by
  have hl : pyLstrip cs = [] := by
    simp only [pyLstrip, List.dropWhile_eq_nil_iff]
    intro x hx
    exact List.all_eq_true.mp h x hx
  simp [pyStrip, hl, pyRstrip, rdropWhileB]

theorem pyStrip_lstrip (cs : Str) : pyStrip (pyLstrip cs) = pyStrip cs := by
  simp [pyStrip, pyLstrip_idem]

theorem pyStrip_rstrip (cs : Str) : pyStrip (pyRstrip cs) = pyStrip cs := by
  induction cs with
  | nil => rfl
  | cons c rest ih =>
    cases h : rdropWhileB isWsChar rest with
    | nil =>
      have hall : rest.all isWsChar := (rdrop_eq_nil_iff _ _).mp h
      simp only [pyRstrip, rdropWhileB, h]
      split
      · next hc =>
        rw [pyStrip_cons_ws hc]
        rw [pyStrip_allws hall]
        rfl
      · next hc =>
        have h1 : pyStrip [c] = [c] := by
          simp [pyStrip, pyLstrip, List.dropWhile_cons, hc, pyRstrip, rdropWhileB]
        rw [h1]
        by_cases hw : isWsChar c = true
        · exact absurd hw hc
        · simp only [pyStrip, pyLstrip, List.dropWhile_cons, hw, if_neg]
          simp only [Bool.false_eq_true, if_false]
          rw [show pyRstrip (c :: rest) = rdropWhileB isWsChar (c :: rest) from rfl]
          simp [rdropWhileB, h, hc]
    | cons y ys =>
      have hcc : pyRstrip (c :: rest) = c :: y :: ys :=
        rdrop_cons_of_cons isWsChar c rest h
      rw [hcc]
      by_cases hw : isWsChar c = true
      · rw [pyStrip_cons_ws hw, pyStrip_cons_ws hw, ← h]
        exact ih
      · have hrr : rdropWhileB isWsChar (y :: ys) = y :: ys := by
          rw [← h]; exact rdrop_idem _ _
        simp only [pyStrip, pyLstrip, List.dropWhile_cons, hw]
        simp only [Bool.false_eq_true, if_false]
        show pyRstrip (c :: y :: ys) = pyRstrip (c :: rest)
        rw [show pyRstrip (c :: y :: ys) = rdropWhileB isWsChar (c :: y :: ys) from rfl,
          rdrop_cons_of_cons isWsChar c (y :: ys) hrr]
        rw [show pyRstrip (c :: rest) = rdropWhileB isWsChar (c :: rest) from rfl,
          rdrop_cons_of_cons isWsChar c rest h]

theorem splitNl_cons_nl (cs : Str) : splitNl ('\n' :: cs) = [] :: splitNl cs := by
  obtain ⟨r, rs, hr⟩ := splitNl_exists_cons cs
  rw [splitNl_cons_eq _ _ hr, if_pos rfl, hr]

theorem splitNl_cons_nonnl {c : Char} (hc : c ≠ '\n') (cs : Str) {r : Str}
    {rs : List Str} (h : splitNl cs = r :: rs) :
    splitNl (c :: cs) = (c :: r) :: rs := by
  rw [splitNl_cons_eq _ _ h, if_neg hc]

theorem all_of_mem_splitNl {p : Char → Bool} {cs l : Str} (ha : cs.all p)
    (hl : l ∈ splitNl cs) : l.all p :=
  List.all_eq_true.mpr fun x hx => List.all_eq_true.mp ha x (mem_splitNl_sub hl x hx)

theorem mem_splitNl_lstrip {cs l : Str} (h : l ∈ splitNl (pyLstrip cs)) :
    ∃ l0 ∈ splitNl cs, pyStrip l = pyStrip l0 := by
  induction cs with
  | nil => exact ⟨l, h, rfl⟩
  | cons c rest ih =>
    by_cases hw : isWsChar c = true
    · rw [show pyLstrip (c :: rest) = pyLstrip rest by
        simp [pyLstrip, List.dropWhile_cons, hw]] at h
      obtain ⟨l0, hl0, he⟩ := ih h
      obtain ⟨r, rs, hr⟩ := splitNl_exists_cons rest
      by_cases hc : c = '\n'
      · subst hc
        rw [splitNl_cons_nl]
        exact ⟨l0, List.mem_cons_of_mem _ hl0, he⟩
      · rw [splitNl_cons_nonnl hc rest hr]
        rw [hr] at hl0
        rcases List.mem_cons.mp hl0 with he0 | he0
        · subst he0
          exact ⟨c :: l0, List.mem_cons_self _ _, by rw [he, pyStrip_cons_ws hw]⟩
        · exact ⟨l0, List.mem_cons_of_mem _ he0, he⟩
    · rw [show pyLstrip (c :: rest) = c :: rest by
        simp [pyLstrip, List.dropWhile_cons, hw]] at h
      exact ⟨l, h, rfl⟩

theorem splitNl_rstrip_shape (cs : Str) :
    ∃ pre mid post, splitNl cs = pre ++ mid :: post ∧
      (∀ l ∈ post, l.all isWsChar) ∧
      splitNl (pyRstrip cs) = pre ++ [pyRstrip mid] := by
  have hwsnl : isWsChar '\n' = true := by decide
  induction cs with
  | nil => exact ⟨[], [], [], rfl, by simp, rfl⟩
  | cons c rest ih =>
    obtain ⟨pre, mid, post, hsp, hpost, hres⟩ := ih
    by_cases hc : c = '\n'
    · subst hc
      cases hr : rdropWhileB isWsChar rest with
      | nil =>
        have hall : rest.all isWsChar := (rdrop_eq_nil_iff _ _).mp hr
        refine ⟨[], [], splitNl rest, ?_, ?_, ?_⟩
        · rw [splitNl_cons_nl]; rfl
        · exact fun l hl => all_of_mem_splitNl hall hl
        · have hstep : pyRstrip ('\n' :: rest) = [] := by
            simp [pyRstrip, rdropWhileB, hr, hwsnl]
          rw [hstep]; rfl
      | cons y ys =>
        have hpr : pyRstrip rest = y :: ys := hr
        have hstep : pyRstrip ('\n' :: rest) = '\n' :: y :: ys :=
          rdrop_cons_of_cons _ _ _ hr
        refine ⟨[] :: pre, mid, post, ?_, hpost, ?_⟩
        · rw [splitNl_cons_nl, hsp]; rfl
        · rw [hstep, splitNl_cons_nl, ← hpr, hres]; rfl
    · cases pre with
      | nil =>
        have hsp0 : splitNl rest = mid :: post := hsp
        cases hr : rdropWhileB isWsChar rest with
        | nil =>
          have hall : rest.all isWsChar := (rdrop_eq_nil_iff _ _).mp hr
          have hmidall : mid.all isWsChar :=
            all_of_mem_splitNl hall (hsp0 ▸ List.mem_cons_self mid post)
          by_cases hw : isWsChar c = true
          · have hstep : pyRstrip (c :: rest) = [] := by
              simp [pyRstrip, rdropWhileB, hr, hw]
            refine ⟨[], c :: mid, post, ?_, hpost, ?_⟩
            · rw [splitNl_cons_nonnl hc rest hsp0]; rfl
            · rw [hstep]
              have h2 : pyRstrip (c :: mid) = [] := by
                apply (rdrop_eq_nil_iff _ _).mpr
                simp [hw, hmidall]
              rw [h2]; rfl
          · have hstep : pyRstrip (c :: rest) = [c] := by
              simp [pyRstrip, rdropWhileB, hr, hw]
            refine ⟨[], c :: mid, post, ?_, hpost, ?_⟩
            · rw [splitNl_cons_nonnl hc rest hsp0]; rfl
            · rw [hstep]
              have h1 : splitNl [c] = [[c]] :=
                splitNl_no_nl (fun hmem => hc (List.mem_singleton.mp hmem).symm)
              have h2 : pyRstrip (c :: mid) = [c] := by
                have h3 : rdropWhileB isWsChar mid = [] :=
                  (rdrop_eq_nil_iff _ _).mpr hmidall
                simp [pyRstrip, rdropWhileB, h3, hw]
              rw [h1, h2]
              rfl
        | cons y ys =>
          have hres0 : splitNl (pyRstrip rest) = [pyRstrip mid] := hres
          have hpr : pyRstrip rest = y :: ys := hr
          have hmidne : pyRstrip mid ≠ [] := by
            intro hnil
            rw [hnil] at hres0
            have h4 := splitNl_eq_singleton_nil hres0
            rw [hpr] at h4
            exact List.noConfusion h4
          obtain ⟨z, zs, hz⟩ : ∃ z zs, pyRstrip mid = z :: zs := by
            cases hzz : pyRstrip mid with
            | nil => exact absurd hzz hmidne
            | cons z zs => exact ⟨z, zs, rfl⟩
          refine ⟨[], c :: mid, post, ?_, hpost, ?_⟩
          · rw [splitNl_cons_nonnl hc rest hsp0]; rfl
          · have hstep : pyRstrip (c :: rest) = c :: pyRstrip rest := by
              rw [hpr]
              exact rdrop_cons_of_cons _ _ _ hr
            rw [hstep, splitNl_cons_nonnl hc (pyRstrip rest) hres0]
            have h2 : pyRstrip (c :: mid) = c :: pyRstrip mid := by
              rw [hz]
              exact rdrop_cons_of_cons _ _ _ hz
            rw [h2]
            rfl
      | cons p0 pre2 =>
        have hsp0 : splitNl rest = p0 :: (pre2 ++ mid :: post) := hsp
        have hres0 : splitNl (pyRstrip rest) = p0 :: (pre2 ++ [pyRstrip mid]) := hres
        obtain ⟨y, ys, hy⟩ : ∃ y ys, rdropWhileB isWsChar rest = y :: ys := by
          cases hzz : rdropWhileB isWsChar rest with
          | nil =>
            rw [show pyRstrip rest = rdropWhileB isWsChar rest from rfl, hzz] at hres0
            exact absurd hres0 (by simp [splitNl])
          | cons y ys => exact ⟨y, ys, rfl⟩
        have hpr : pyRstrip rest = y :: ys := hy
        refine ⟨(c :: p0) :: pre2, mid, post, ?_, hpost, ?_⟩
        · rw [splitNl_cons_nonnl hc rest hsp0]; rfl
        · have hstep : pyRstrip (c :: rest) = c :: pyRstrip rest := by
            rw [hpr]
            exact rdrop_cons_of_cons _ _ _ hy
          rw [hstep, splitNl_cons_nonnl hc (pyRstrip rest) hres0]
          rfl

theorem mem_splitNl_rstrip {cs l : Str} (h : l ∈ splitNl (pyRstrip cs)) :
    ∃ l0 ∈ splitNl cs, pyStrip l = pyStrip l0 := by
  obtain ⟨pre, mid, post, hsp, hpost, hres⟩ := splitNl_rstrip_shape cs
  rw [hres] at h
  rcases List.mem_append.mp h with hm | hm
  · exact ⟨l, by rw [hsp]; exact List.mem_append_left _ hm, rfl⟩
  · rw [List.mem_singleton] at hm
    subst hm
    exact ⟨mid, by rw [hsp]; exact List.mem_append_right _ (List.mem_cons_self _ _),
      pyStrip_rstrip mid⟩

theorem mem_splitNl_strip {cs l : Str} (h : l ∈ splitNl (pyStrip cs)) :
    ∃ l0 ∈ splitNl cs, pyStrip l = pyStrip l0 := by
  have h1 : l ∈ splitNl (pyRstrip (pyLstrip cs)) := h
  obtain ⟨l1, hl1, he1⟩ := mem_splitNl_rstrip h1
  obtain ⟨l0, hl0, he0⟩ := mem_splitNl_lstrip hl1
  exact ⟨l0, hl0, he1.trans he0⟩

/-! ## Claim C5 -/

theorem extractTitleGo_hello (L : List Str)
    (hfirst : (L.find? isTitleCand).map pyStrip = some (("# Hello").toList))
    (hcount : L.countP (fun l => pyStrip l == ("# Hello").toList) = 1) :
    ∃ rem, extractTitleGo L = some ((("Hello").toList), rem) ∧
      (∀ l ∈ rem, pyStrip l ≠ ("# Hello").toList) ∧ (∀ l ∈ rem, l ∈ L) := by
  induction L with
  | nil => exact absurd hfirst (by decide)
  | cons l ls ih =>
    by_cases hc : isTitleCand l = true
    · rw [List.find?_cons_of_pos _ hc] at hfirst
      have hsl : pyStrip l = ("# Hello").toList := by simpa using hfirst
      have htit : titleCandText (pyStrip l) = ("Hello").toList := by
        rw [hsl]
        decide
      refine ⟨ls, ?_, ?_, fun x hx => List.mem_cons_of_mem _ hx⟩
      · simp [extractTitleGo, hc, htit]
      · rw [List.countP_cons] at hcount
        have hp : (pyStrip l == ("# Hello").toList) = true := beq_iff_eq.mpr hsl
        rw [hp, if_pos rfl] at hcount
        have hz : ls.countP (fun l => pyStrip l == ("# Hello").toList) = 0 := by omega
        intro x hx hxe
        have h0 := List.countP_eq_zero.mp hz x hx
        exact h0 (beq_iff_eq.mpr hxe)
    · have hne : pyStrip l ≠ ("# Hello").toList := by
        intro he
        apply hc
        simp only [isTitleCand, he]
        decide
      rw [List.find?_cons_of_neg _ (by simpa using hc)] at hfirst
      rw [List.countP_cons] at hcount
      have hp : (pyStrip l == ("# Hello").toList) = false := beq_eq_false_iff_ne.mpr hne
      rw [hp, if_neg (by simp), Nat.add_zero] at hcount
      obtain ⟨rem, hgo, hprop, hmem⟩ := ih hfirst hcount
      refine ⟨l :: rem, ?_, ?_, ?_⟩
      · simp [extractTitleGo, hc, hgo]
      · intro x hx
        rcases List.mem_cons.mp hx with he | he
        · exact he ▸ hne
        · exact hprop x he
      · intro x hx
        rcases List.mem_cons.mp hx with he | he
        · exact he ▸ List.mem_cons_self _ _
        · exact List.mem_cons_of_mem _ (hmem x he)

/-- C5: when the metadata yields no truthy title and the first
title-candidate line of the (heading-fixed) body strips to `# Hello`,
that line occurring exactly once, a successful standardization titles the
document `Hello` and the line `# Hello` is absent from the output body. -/
theorem C5_heading_fallback (fm : YDict) (content dirName : Str)
    (posts : Option (List Str)) (oracle : Str → Option Str) (today : PyDate)
    (c : YDict) (b : Str)
    (hnotitle : truthyO (yamlTitleOf fm) = false)
    (hfirst : ((splitNl (fix_duplicate_headings content).1).find? isTitleCand).map
      pyStrip = some (("# Hello").toList))
    (hcount : (splitNl (fix_duplicate_headings content).1).countP
      (fun l => pyStrip l == ("# Hello").toList) = 1)
    (h : standardize_frontmatter fm content dirName posts oracle today = .ok (c, b)) :
    findk c kTitle = some (.sc (.s (("Hello").toList)))
  ∧ ("# Hello").toList ∉ splitNl b := by
  obtain ⟨c1, c5, ht, hs, hc⟩ := standardize_ok_shape h
  subst hc
  obtain ⟨rem, hgo, hnostrip, hmem⟩ := extractTitleGo_hello _ hfirst hcount
  have hext : extract_title_from_content (fix_duplicate_headings content).1
      = (some (("Hello").toList), pyStrip (joinNl rem)) := by
    simp [extract_title_from_content, hgo]
  have ht2 : handleTitle fm (fix_duplicate_headings content).1
      = .ok (setk [] kTitle (.sc (.s (("Hello").toList))), pyStrip (joinNl rem)) := by
    simp [handleTitle, hnotitle, hext]
  rw [ht2] at ht
  rw [Except.ok.injEq, Prod.mk.injEq] at ht
  obtain ⟨hc1, hb⟩ := ht
  constructor
  · rw [findk_after_tail _ _ (by decide) (by decide) (by decide) (by decide)
      (by decide) (by decide),
      findk_after_mid _ _ _ _ _ _ _ hs (by decide) (by decide) (by decide) (by decide),
      ← hc1, findk_setk_self]
  · rw [← hb]
    intro hmem2
    by_cases hrem : rem = []
    · subst hrem
      revert hmem2
      decide
    · obtain ⟨l0, hl0, he⟩ := mem_splitNl_strip hmem2
      rw [splitNl_join (fun x hx => mem_splitNl_no_nl (hmem x hx)) hrem] at hl0
      apply hnostrip l0 hl0
      have hself : pyStrip (("# Hello").toList) = ("# Hello").toList := by decide
      rw [hself] at he
      exact he.symm

/-- The output dict of the C5 witness run. -/
def c5WitDict : YDict :=
  [ (kTitle, .sc (.s ("Hello".toList))),
    (kAuthor, .sc (.s ("Nikhil Agarwal".toList))),
    (kDate, .sc (.s ("2025-08-13".toList))),
    (kDescription, .sc (.s ['"', '"'])),
    (kShortPath, .sc (.s ("hello".toList))),
    (kCategories, .li []),
    (kDraft, .sc (.b false)),
    (kToc, .sc (.b false)),
    (kCln, .sc (.b false)) ]

/-- Witness for C5: all hypotheses hold at a concrete document whose body
is `x`, `# Hello`, `## World` on three lines — `# Hello` is the first of
two heading candidates — and the theorem applies there. -/
theorem C5_heading_fallback_witness :
    truthyO (yamlTitleOf []) = false
  ∧ ((splitNl (fix_duplicate_headings (("x\n# Hello\n## World").toList)).1).find?
      isTitleCand).map pyStrip = some (("# Hello").toList)
  ∧ (splitNl (fix_duplicate_headings (("x\n# Hello\n## World").toList)).1).countP
      (fun l => pyStrip l == ("# Hello").toList) = 1
  ∧ standardize_frontmatter [] (("x\n# Hello\n## World").toList) (("d").toList) none
      oracleNone dateC = .ok (c5WitDict, ("x\n## World").toList)
  ∧ (findk c5WitDict kTitle = some (.sc (.s (("Hello").toList)))
     ∧ ("# Hello").toList ∉ splitNl (("x\n## World").toList)) :=
  ⟨by decide, by decide, by decide, by decide,
   C5_heading_fallback [] (("x\n# Hello\n## World").toList) (("d").toList) none
     oracleNone dateC c5WitDict (("x\n## World").toList) (by decide) (by decide)
     (by decide) (by decide)⟩

/-! ## Claim C6 -/

theorem rdrop_append_right (p : Char → Bool) (a t : Str)
    (ht : rdropWhileB p t = t) (hne : t ≠ []) :
    rdropWhileB p (a ++ t) = a ++ t := by
  induction a with
  | nil => exact ht
  | cons c a2 ih =>
    obtain ⟨y, ys, hy⟩ : ∃ y ys, a2 ++ t = y :: ys := by
      cases hz : a2 ++ t with
      | nil => exact absurd (List.append_eq_nil.mp hz).2 hne
      | cons y ys => exact ⟨y, ys, rfl⟩
    rw [List.cons_append]
    rw [hy] at ih
    exact hy ▸ rdrop_cons_of_cons p c _ (hy ▸ ih)

theorem countLeadingHashes_replicate (n : Nat) (r : Str) :
    countLeadingHashes (List.replicate n '#' ++ ' ' :: r) = n := by
  induction n with
  | zero => simp [countLeadingHashes, List.takeWhile]
  | succ m ih =>
    rw [List.replicate_succ, List.cons_append]
    simp only [countLeadingHashes, List.takeWhile] at ih ⊢
    simp [ih]

theorem fixLine_dedupe (n : Nat) (sp text : Str)
    (hsp : ∀ c ∈ sp, c = ' ')
    (hlt : pyLstrip text = text) (hrt : pyRstrip text = text) (hne : text ≠ []) :
    (fixDuplicateHeadingLine (sp ++ List.replicate (n + 1) '#' ++
        ' ' :: (List.replicate (n + 1) '#' ++ ' ' :: text))).1
      = sp ++ List.replicate (n + 1) '#' ++ ' ' :: text := by
  have hwsp : isWsChar ' ' = true := by decide
  have hwhash : isWsChar '#' = false := by decide
  have hspws : ∀ c ∈ sp, isWsChar c = true := fun c hc => (hsp c hc) ▸ hwsp
  have hHcons : List.replicate (n + 1) '#' = '#' :: List.replicate n '#' :=
    List.replicate_succ '#' n
  -- the left strip of the whole line
  have hls : pyLstrip (sp ++ List.replicate (n + 1) '#' ++
      ' ' :: (List.replicate (n + 1) '#' ++ ' ' :: text))
      = List.replicate (n + 1) '#' ++ ' ' :: (List.replicate (n + 1) '#' ++ ' ' :: text) := by
    rw [List.append_assoc]
    rw [show pyLstrip (sp ++ (List.replicate (n + 1) '#' ++
        ' ' :: (List.replicate (n + 1) '#' ++ ' ' :: text)))
      = pyLstrip (List.replicate (n + 1) '#' ++
        ' ' :: (List.replicate (n + 1) '#' ++ ' ' :: text))
      from List.dropWhile_append_of_pos hspws]
    rw [hHcons, List.cons_append, pyLstrip, List.dropWhile_cons, hwhash]
    simp
  -- the right strip leaves the stripped form alone
  have hrs : pyRstrip (List.replicate (n + 1) '#' ++
      ' ' :: (List.replicate (n + 1) '#' ++ ' ' :: text))
      = List.replicate (n + 1) '#' ++ ' ' :: (List.replicate (n + 1) '#' ++ ' ' :: text) := by
    have := rdrop_append_right isWsChar
      (List.replicate (n + 1) '#' ++ ' ' :: (List.replicate (n + 1) '#' ++ [' '])) text
      hrt hne
    simpa [List.append_assoc] using this
  have hA : pyStrip (sp ++ List.replicate (n + 1) '#' ++
      ' ' :: (List.replicate (n + 1) '#' ++ ' ' :: text))
      = List.replicate (n + 1) '#' ++ ' ' :: (List.replicate (n + 1) '#' ++ ' ' :: text) := by
    rw [pyStrip, hls, hrs]
  have hB : List.isPrefixOf ("#".toList) (List.replicate (n + 1) '#' ++
      ' ' :: (List.replicate (n + 1) '#' ++ ' ' :: text)) = true := by
    apply List.isPrefixOf_iff_prefix.mpr
    rw [hHcons]
    exact ⟨_, rfl⟩
  have hC : countLeadingHashes (List.replicate (n + 1) '#' ++
      ' ' :: (List.replicate (n + 1) '#' ++ ' ' :: text)) = n + 1 :=
    countLeadingHashes_replicate (n + 1) _
  have hD : (List.replicate (n + 1) '#' ++
      ' ' :: (List.replicate (n + 1) '#' ++ ' ' :: text)).drop (n + 1)
      = ' ' :: (List.replicate (n + 1) '#' ++ ' ' :: text) :=
    List.drop_left' (List.length_replicate _ _)
  have hE : pyStrip (' ' :: (List.replicate (n + 1) '#' ++ ' ' :: text))
      = List.replicate (n + 1) '#' ++ ' ' :: text := by
    rw [pyStrip_cons_ws hwsp, pyStrip]
    rw [show pyLstrip (List.replicate (n + 1) '#' ++ ' ' :: text)
      = List.replicate (n + 1) '#' ++ ' ' :: text by
        rw [hHcons, List.cons_append, pyLstrip, List.dropWhile_cons, hwhash]
        simp]
    have := rdrop_append_right isWsChar (List.replicate (n + 1) '#' ++ [' ']) text hrt hne
    simpa [List.append_assoc] using this
  have hF : List.isPrefixOf (List.replicate (n + 1) '#')
      (List.replicate (n + 1) '#' ++ ' ' :: text) = true :=
    List.isPrefixOf_iff_prefix.mpr (List.prefix_append _ _)
  have hG : (List.replicate (n + 1) '#' ++ ' ' :: text).drop (n + 1) = ' ' :: text :=
    List.drop_left' (List.length_replicate _ _)
  have hH : pyStrip (' ' :: text) = text := by
    rw [pyStrip_cons_ws hwsp, pyStrip, hlt, hrt]
  simp only [fixDuplicateHeadingLine, hA, hB, if_true, hC, hD, hE, hF, hG, hH]
  rw [if_pos hne]
  have hlen : (sp ++ List.replicate (n + 1) '#' ++
      ' ' :: (List.replicate (n + 1) '#' ++ ' ' :: text)).length
      - (pyLstrip (sp ++ List.replicate (n + 1) '#' ++
          ' ' :: (List.replicate (n + 1) '#' ++ ' ' :: text))).length = sp.length := by
    rw [hls]
    simp [List.length_append]
  rw [hlen]
  have hreps : List.replicate sp.length ' ' = sp :=
    (List.eq_replicate_length.mpr hsp).symm
  rw [hreps]

/-- C6: a line made of N heading markers, the same N markers again, and
nonempty trimmed text (with space indentation) is collapsed by
`fix_duplicate_headings` to a single marker occurrence with the
indentation preserved; and the fix runs before title resolution, so the
body `# # Hello World` titles the document `Hello World`. -/
theorem C6_dedupe (n : Nat) (sp text : Str)
    (hsp : ∀ c ∈ sp, c = ' ') (hnl : '\n' ∉ text)
    (hlt : pyLstrip text = text) (hrt : pyRstrip text = text) (hne : text ≠ []) :
    (fix_duplicate_headings (sp ++ List.replicate (n + 1) '#' ++
        ' ' :: (List.replicate (n + 1) '#' ++ ' ' :: text))).1
      = sp ++ List.replicate (n + 1) '#' ++ ' ' :: text
  ∧ fieldOfResult kTitle (standardize_frontmatter [] (("# # Hello World").toList)
      (("d").toList) none oracleNone dateC)
      = some (.sc (.s (("Hello World").toList))) := by
  constructor
  · have hnl2 : '\n' ∉ sp ++ List.replicate (n + 1) '#' ++
        ' ' :: (List.replicate (n + 1) '#' ++ ' ' :: text) := by
      intro hmem
      rcases List.mem_append.mp hmem with h1 | h2
      · rcases List.mem_append.mp h1 with h3 | h4
        · exact absurd (hsp _ h3) (by decide)
        · exact absurd (List.eq_of_mem_replicate h4) (by decide)
      · rcases List.mem_cons.mp h2 with h3 | h4
        · exact absurd h3 (by decide)
        · rcases List.mem_append.mp h4 with h5 | h6
          · exact absurd (List.eq_of_mem_replicate h5) (by decide)
          · rcases List.mem_cons.mp h6 with h7 | h8
            · exact absurd h7 (by decide)
            · exact hnl h8
    have hsplit : splitNl (sp ++ List.replicate (n + 1) '#' ++
        ' ' :: (List.replicate (n + 1) '#' ++ ' ' :: text))
        = [sp ++ List.replicate (n + 1) '#' ++
           ' ' :: (List.replicate (n + 1) '#' ++ ' ' :: text)] := splitNl_no_nl hnl2
    simp only [fix_duplicate_headings, hsplit, List.map, joinNl]
    exact fixLine_dedupe n sp text hsp hlt hrt hne
  · decide

/-- Witness for C6: the hypotheses hold for N = 1, empty indentation and
the text `Hello World`, and the theorem applies there. -/
theorem C6_dedupe_witness :
    (∀ c ∈ ([] : Str), c = ' ')
  ∧ '\n' ∉ ("Hello World").toList
  ∧ pyLstrip (("Hello World").toList) = ("Hello World").toList
  ∧ pyRstrip (("Hello World").toList) = ("Hello World").toList
  ∧ ("Hello World").toList ≠ []
  ∧ ((fix_duplicate_headings (([] : Str) ++ List.replicate 1 '#' ++
        ' ' :: (List.replicate 1 '#' ++ ' ' :: ("Hello World").toList))).1
      = ([] : Str) ++ List.replicate 1 '#' ++ ' ' :: ("Hello World").toList
     ∧ fieldOfResult kTitle (standardize_frontmatter [] (("# # Hello World").toList)
        (("d").toList) none oracleNone dateC)
        = some (.sc (.s (("Hello World").toList)))) :=
  ⟨by decide, by decide, by decide, by decide, by decide,
   C6_dedupe 0 [] (("Hello World").toList) (by decide) (by decide) (by decide)
     (by decide) (by decide)⟩
